import Mathlib

/-!
Shallow embedding of `sqlitefspath` (src/sqlitefspath/sqlitefspath.py).

The backing sqlite store is modelled as two relations held as lists in rowid
order (sqlite scans this table in rowid order, and `fs.id` is an
AUTOINCREMENT primary key, so insertion appends a row with a fresh,
strictly larger id):

  * `fs`   — tree nodes: `id, name, parent_id, file_id`
             (`file_id` is NULL for directories);
  * `data` — file content: `file_id, link_count, data`.

All operations run on a single connection, so every statement's effect is
immediately visible to later statements; `conn.commit()` is a no-op in this
model.  Python exceptions are modelled by `Except Err`; a raised exception
aborts the operation.  Bytes are modelled as `List Nat`.
-/

abbrev Bytes := List Nat

/-- A row of the `fs` table. -/
structure FsRow where
  id : Nat
  name : String
  parent_id : Option Nat
  file_id : Option Nat
  deriving DecidableEq

/-- A row of the `data` table. -/
structure DataRow where
  file_id : Nat
  link_count : Int
  data : Bytes
  deriving DecidableEq

/-- The whole store: both tables (in rowid order) plus the next fresh ids. -/
structure DB where
  fs : List FsRow
  next_fs_id : Nat
  data : List DataRow
  next_file_id : Nat
  deriving DecidableEq

def ROOT_ID : Nat := 1

/-- The store right after `SqliteConnect.__init__`: only the bootstrap root row. -/
def initDB : DB :=
  { fs := [⟨ROOT_ID, "root", none, none⟩]
    next_fs_id := 2
    data := []
    next_file_id := 1 }

/-- Python exception kinds raised by the source. -/
inductive Err where
  | notFound (msg : String)
  | permissionDenied (msg : String)
  | alreadyExists (msg : String)
  | valueError (msg : String)
  | assertionFailed
  | indexError
  | unboundLocal
  deriving DecidableEq

/-- Character-list splitter on the separator. Computable model of
Python's `str.split` with a one-character separator (used with "/"):
`splitOnSlashAux cs acc` splits `cs`, with `acc` the reversed current chunk. -/
def splitOnSlashAux : List Char → List Char → List (List Char)
  | [], acc => [acc.reverse]
  | c :: cs, acc =>
    if c = '/' then acc.reverse :: splitOnSlashAux cs []
    else splitOnSlashAux cs (c :: acc)

/-- Python `s.split("/")`, over the string's character list. -/
def splitOnSlash (s : String) : List String :=
  (splitOnSlashAux s.data []).map (fun l => String.mk l)

/-- Python `s.startswith("/")`: the first character is the separator. -/
def startsWithSlash (s : String) : Bool :=
  s.data.head? == some '/'

/-- `SqliteFsPurePath.__init__`: reject any raw segment starting with "/",
then split every raw segment on "/" and drop empty components
(with the special case that the single argument "" gives the empty path).
`str.startswith("/")` and `str.split("/")` are modelled over the character
list of the string (see `startsWithSlash`, `splitOnSlash`) so that the
definition computes. -/
def purePathInit (pathsegments : List String) : Except Err (List String) :=
  if pathsegments.any (fun s => startsWithSlash s) then
    .error (.valueError "paths starting with / are currently not supported")
  else if pathsegments = [""] then
    .ok []
  else
    .ok (((pathsegments.map (fun s => splitOnSlash s)).flatten).filter (fun s => s != ""))

/-- `SqliteFsPath._find_node`: SELECT id, file_id FROM fs WHERE parent_id = ? and name = ?
(`fetchone` returns the first matching row); raises FileNotFoundError if absent. -/
def find_node (db : DB) (parentId : Option Nat) (segment : String) :
    Except Err (Nat × Option Nat) :=
  match db.fs.find? (fun r => r.parent_id == parentId && r.name == segment) with
  | none => .error (.notFound segment)
  | some r => .ok (r.id, r.file_id)

/-- The loop body of `SqliteFsPath._get_file_id`: walk every segment with
`_find_node` and return the last node's `file_id`.  On an empty segment list
the Python local `file_id` is never assigned, so an UnboundLocalError is
raised. -/
def get_file_id_from (db : DB) (parentId : Nat) : List String → Except Err (Option Nat)
  | [] => .error .unboundLocal
  | [segment] =>
    match find_node db (some parentId) segment with
    | .error e => .error e
    | .ok (_, fileId) => .ok fileId
  | segment :: rest =>
    match find_node db (some parentId) segment with
    | .error e => .error e
    | .ok (nodeId, _) => get_file_id_from db nodeId rest

/-- `SqliteFsPath._get_file_id` on a freshly constructed path
(`parent_id = ROOT_ID`, cache unset). -/
def get_file_id (db : DB) (segments : List String) : Except Err (Option Nat) :=
  get_file_id_from db ROOT_ID segments

/-- `SqliteFsPath._insert_directory`: INSERT INTO fs ... ; a UNIQUE(name, parent_id)
violation (IntegrityError) is reraised as FileExistsError(segment). -/
def insert_directory (db : DB) (segment : String) (parentId : Nat) :
    Except Err (DB × Nat) :=
  if db.fs.any (fun r => r.name == segment && r.parent_id == some parentId) then
    .error (.alreadyExists segment)
  else
    let nodeId := db.next_fs_id
    let row : FsRow := ⟨nodeId, segment, some parentId, none⟩
    .ok ({ db with fs := db.fs ++ [row], next_fs_id := nodeId + 1 }, nodeId)

/-- `SqliteFsPath._insert_ignore_directory`: INSERT ... ON CONFLICT DO UPDATE SET
file_id = file_id RETURNING rowid, file_id.  On conflict the existing row is
returned unchanged; if it is a file, FileExistsError is raised. -/
def insert_ignore_directory (db : DB) (segment : String) (parentId : Nat) :
    Except Err (DB × Nat) :=
  match db.fs.find? (fun r => r.name == segment && r.parent_id == some parentId) with
  | some r =>
    match r.file_id with
    | some _ => .error (.alreadyExists (segment ++ " is a file"))
    | none => .ok (db, r.id)
  | none =>
    let nodeId := db.next_fs_id
    let row : FsRow := ⟨nodeId, segment, some parentId, none⟩
    .ok ({ db with fs := db.fs ++ [row], next_fs_id := nodeId + 1 }, nodeId)

/-- `SqliteFsPath._select_directory`: SELECT id FROM fs WHERE name = ? AND
parent_id = ? AND file_id IS NULL; raises FileNotFoundError(segment) if no row
matches (so both a missing name and a file occupying the name fail alike). -/
def select_directory (db : DB) (segment : String) (parentId : Nat) : Except Err Nat :=
  match db.fs.find?
      (fun r => r.name == segment && r.parent_id == some parentId && r.file_id == none) with
  | none => .error (.notFound segment)
  | some r => .ok r.id

/-- The `for segment in segments: parent_id = self._select_directory(segment, parent_id)`
loop shared by `read_bytes`, `write_bytes`, `iterdir`, `mkdir` and `hardlink_to`. -/
def resolve_dirs (db : DB) (parentId : Nat) : List String → Except Err Nat
  | [] => .ok parentId
  | segment :: rest =>
    match select_directory db segment parentId with
    | .error e => .error e
    | .ok nodeId => resolve_dirs db nodeId rest

/-- `SqliteFsPath._read_file_id`: SELECT length(data), data FROM data WHERE file_id = ?;
the source asserts the row exists. -/
def read_file_id (db : DB) (fileId : Nat) : Except Err (Nat × Bytes) :=
  match db.data.find? (fun d => d.file_id == fileId) with
  | none => .error .assertionFailed
  | some d => .ok (d.data.length, d.data)

/-- `SqliteFsPath._read_file_meta_id`: SELECT length(data), link_count FROM data
WHERE file_id = ?; the source asserts the row exists. -/
def read_file_meta_id (db : DB) (fileId : Nat) : Except Err (Nat × Int) :=
  match db.data.find? (fun d => d.file_id == fileId) with
  | none => .error .assertionFailed
  | some d => .ok (d.data.length, d.link_count)

/-- `SqliteFsPath._read_file_existing`: look up the leaf by (name, parent_id);
NotFound if absent, PermissionError if it is a directory, else fetch the data row. -/
def read_file_existing (db : DB) (segment : String) (parentId : Nat) :
    Except Err (Nat × Bytes × Nat) :=
  match db.fs.find? (fun r => r.name == segment && r.parent_id == some parentId) with
  | none => .error (.notFound segment)
  | some r =>
    match r.file_id with
    | none => .error (.permissionDenied (segment ++ " is a directory"))
    | some fileId =>
      match read_file_id db fileId with
      | .error e => .error e
      | .ok (filesize, data) => .ok (filesize, data, fileId)

/-- `SqliteFsPath._insert_file_overwrite_id`: UPDATE data SET data = ? WHERE file_id = ?. -/
def insert_file_overwrite_id (db : DB) (data : Bytes) (fileId : Nat) : DB :=
  { db with
    data := db.data.map (fun (d : DataRow) => if d.file_id == fileId then { d with data := data } else d) }

/-- `SqliteFsPath._insert_file_overwrite`: if the leaf name is absent, insert a data
row (link_count = 1) and an fs row referencing it; if present and a directory,
return `none` as file id (caller raises); if present and a file, overwrite the
data in place. -/
def insert_file_overwrite (db : DB) (segment : String) (parentId : Nat) (data : Bytes) :
    DB × Nat × Option Nat :=
  match db.fs.find? (fun r => r.name == segment && r.parent_id == some parentId) with
  | none =>
    let fileId := db.next_file_id
    let dataRow : DataRow := ⟨fileId, 1, data⟩
    let db1 := { db with data := db.data ++ [dataRow], next_file_id := fileId + 1 }
    let nodeId := db1.next_fs_id
    let fsRow : FsRow := ⟨nodeId, segment, some parentId, some fileId⟩
    let db2 := { db1 with fs := db1.fs ++ [fsRow], next_fs_id := nodeId + 1 }
    (db2, nodeId, some fileId)
  | some r =>
    match r.file_id with
    | none => (db, r.id, none)
    | some fileId => (insert_file_overwrite_id db data fileId, r.id, some fileId)

/-- `SqliteFsPath._insert_hardlink_new`: INSERT the new fs row (FileExistsError on a
UNIQUE violation), then UPDATE data SET link_count = link_count + 1 WHERE
file_id = ? RETURNING link_count (the source asserts a row was returned). -/
def insert_hardlink_new (db : DB) (segment : String) (parentId : Nat) (fileId : Nat) :
    Except Err (DB × Nat × Int) :=
  if db.fs.any (fun r => r.name == segment && r.parent_id == some parentId) then
    .error (.alreadyExists segment)
  else
    match (db.data.map (fun (d : DataRow) => if d.file_id == fileId
        then { d with link_count := d.link_count + 1 } else d)).find?
        (fun d => d.file_id == fileId) with
    | none => .error .assertionFailed
    | some d =>
      .ok ({ db with
             fs := db.fs ++ [⟨db.next_fs_id, segment, some parentId, some fileId⟩]
             next_fs_id := db.next_fs_id + 1
             data := db.data.map (fun (d : DataRow) => if d.file_id == fileId
               then { d with link_count := d.link_count + 1 } else d) },
           db.next_fs_id, d.link_count)

/-- `SqliteFsPath.read_bytes` on a freshly constructed path (cache unset):
resolve the ancestors as directories, read the leaf, return the data. -/
def read_bytes (db : DB) (segments : List String) : Except Err Bytes :=
  match segments.getLast? with
  | none => .error .indexError
  | some segment =>
    match resolve_dirs db ROOT_ID segments.dropLast with
    | .error e => .error e
    | .ok parentId =>
      match read_file_existing db segment parentId with
      | .error e => .error e
      | .ok (_, _, fileId) =>
        match read_file_id db fileId with
        | .error e => .error e
        | .ok (_, data) => .ok data

/-- `SqliteFsPath.write_bytes` on a freshly constructed path (cache unset):
resolve the ancestors as directories, then insert-or-overwrite at the leaf;
PermissionError if the leaf is a directory. -/
def write_bytes (db : DB) (segments : List String) (data : Bytes) : Except Err DB :=
  match segments.getLast? with
  | none => .error .indexError
  | some segment =>
    match resolve_dirs db ROOT_ID segments.dropLast with
    | .error e => .error e
    | .ok parentId =>
      match insert_file_overwrite db segment parentId data with
      | (_, _, none) => .error (.permissionDenied segment)
      | (db1, _, some _) => .ok db1

/-- The ancestor loop of `mkdir` when `parents=True`: get-or-create every
ancestor with `_insert_ignore_directory`. -/
def mkdir_parents (db : DB) (parentId : Nat) : List String → Except Err (DB × Nat)
  | [] => .ok (db, parentId)
  | segment :: rest =>
    match insert_ignore_directory db segment parentId with
    | .error e => .error e
    | .ok (db1, nodeId) => mkdir_parents db1 nodeId rest

/-- `SqliteFsPath.mkdir`: ancestors via `_insert_ignore_directory` (parents=True)
or `_select_directory` (parents=False); leaf via `_insert_ignore_directory`
(exist_ok=True) or `_insert_directory` (exist_ok=False).  An empty segment
list raises IndexError at `self.segments[-1]` after the (empty) ancestor loop. -/
def mkdir (db : DB) (segments : List String) (parents exist_ok : Bool) : Except Err DB :=
  match (if parents then
           mkdir_parents db ROOT_ID segments.dropLast
         else
           match resolve_dirs db ROOT_ID segments.dropLast with
           | .error e => .error e
           | .ok pid => .ok (db, pid)) with
  | .error e => .error e
  | .ok (db1, parentId) =>
    match segments.getLast? with
    | none => .error .indexError
    | some segment =>
      if exist_ok then
        match insert_ignore_directory db1 segment parentId with
        | .error e => .error e
        | .ok (db2, _) => .ok db2
      else
        match insert_directory db1 segment parentId with
        | .error e => .error e
        | .ok (db2, _) => .ok db2

/-- One entry yielded by `iterdir`: the child path (one segment longer), its
node id and its `file_id` state, as built by `SqliteFsPath.with_meta`. -/
structure Entry where
  segments : List String
  node_id : Nat
  file_id : Option Nat
  deriving DecidableEq

/-- `SqliteFsPath.iterdir`: resolve every segment as a directory, then
SELECT id, name, file_id FROM fs WHERE parent_id = ? (rows come back in rowid
order, i.e. list order of the model). -/
def iterdir (db : DB) (segments : List String) : Except Err (List Entry) :=
  match resolve_dirs db ROOT_ID segments with
  | .error e => .error e
  | .ok parentId =>
    .ok ((db.fs.filter (fun r => r.parent_id == some parentId)).map
      (fun r => ⟨segments ++ [r.name], r.id, r.file_id⟩))

/-- `SqliteFsPath.hardlink_to` on a freshly constructed path (cache unset):
resolve the new path's ancestors as directories, construct the target path
from the raw target string and resolve it with `_get_file_id`, PermissionError
if the target is a directory, then `_insert_hardlink_new` at the leaf. -/
def hardlink_to (db : DB) (segments : List String) (target : String) : Except Err DB :=
  match resolve_dirs db ROOT_ID segments.dropLast with
  | .error e => .error e
  | .ok parentId =>
    match purePathInit [target] with
    | .error e => .error e
    | .ok targetSegments =>
      match get_file_id db targetSegments with
      | .error e => .error e
      | .ok none => .error (.permissionDenied target)
      | .ok (some fid) =>
        match segments.getLast? with
        | none => .error .indexError
        | some segment =>
          match insert_hardlink_new db segment parentId fid with
          | .error e => .error e
          | .ok (db1, _, _) => .ok db1

/-- `SqliteFsPath.exists` on a fresh path: `_get_file_id`, catching only
FileNotFoundError (which gives False). -/
def exists_ (db : DB) (segments : List String) : Except Err Bool :=
  match get_file_id db segments with
  | .ok _ => .ok true
  | .error (.notFound _) => .ok false
  | .error e => .error e

/-- `SqliteFsPath.is_file` on a fresh path: `_get_file_id`, catching only
FileNotFoundError; True iff the resolved `file_id` is not NULL. -/
def is_file (db : DB) (segments : List String) : Except Err Bool :=
  match get_file_id db segments with
  | .ok fileId => .ok fileId.isSome
  | .error (.notFound _) => .ok false
  | .error e => .error e

/-- `SqliteFsPath.is_dir` on a fresh path: `_get_file_id`, catching only
FileNotFoundError; True iff the resolved `file_id` is NULL. -/
def is_dir (db : DB) (segments : List String) : Except Err Bool :=
  match get_file_id db segments with
  | .ok fileId => .ok fileId.isNone
  | .error (.notFound _) => .ok false
  | .error e => .error e

/-- Modelled from the spec: `SqliteFsPath.unlink` raises NotImplementedError in
the source, so its body is missing from src/; this follows spec section 4.4:
resolve the leaf (ancestors as directories, in the module's uniform pattern);
fail NotFound unless `missing_ok` (in which case nothing changes); fail
PermissionDenied if the node is a directory; otherwise delete the TreeNode
row, decrement the referenced Content row's link_count, and delete the
Content row in the same transaction when the count reaches 0. -/
def unlink (db : DB) (segments : List String) (missing_ok : Bool) : Except Err DB :=
  match segments.getLast? with
  | none => .error .indexError
  | some segment =>
    match (match resolve_dirs db ROOT_ID segments.dropLast with
           | .error e => .error e
           | .ok parentId => find_node db (some parentId) segment : Except Err (Nat × Option Nat)) with
    | .error (.notFound s) => if missing_ok then .ok db else .error (.notFound s)
    | .error e => .error e
    | .ok (nodeId, fileId) =>
      match fileId with
      | none => .error (.permissionDenied (segment ++ " is a directory"))
      | some fid =>
        let db1 := { db with fs := db.fs.filter (fun r => r.id != nodeId) }
        let db2 := { db1 with
                      data := db1.data.map
                        (fun (d : DataRow) => if d.file_id == fid then { d with link_count := d.link_count - 1 } else d) }
        let db3 := { db2 with
                      data := db2.data.filter
                        (fun d => !(d.file_id == fid && d.link_count == 0)) }
        .ok db3

/-- A public mutating operation of the store (the implemented ones, plus the
spec-modelled `unlink`). -/
inductive Op where
  | mkdirOp (segments : List String) (parents exist_ok : Bool)
  | writeOp (segments : List String) (data : Bytes)
  | linkOp (segments : List String) (target : String)
  | unlinkOp (segments : List String) (missing_ok : Bool)

def runOp (db : DB) : Op → Except Err DB
  | .mkdirOp s p e => mkdir db s p e
  | .writeOp s d => write_bytes db s d
  | .linkOp s t => hardlink_to db s t
  | .unlinkOp s m => unlink db s m

/-- The states reachable from the fresh store by successful public operations. -/
inductive Reachable : DB → Prop
  | init : Reachable initDB
  | step {db db' : DB} {op : Op} : Reachable db → runOp db op = .ok db' → Reachable db'

/-- Number of fs rows whose `file_id` references the given data row
(the live reference count). -/
def refCount (db : DB) (fileId : Nat) : Nat :=
  (db.fs.filter (fun r => r.file_id == some fileId)).length

/-- Well-formedness of a store state: ids are below the fresh counters and
listed in insertion (ascending id) order, sibling names are unique, every fs
file reference has exactly one data row, and link counts equal live reference
counts (and hence are positive). -/
def StoreInv (db : DB) : Prop :=
  ROOT_ID < db.next_fs_id ∧
  (∀ r ∈ db.fs, r.id < db.next_fs_id) ∧
  db.fs.Pairwise (fun a b => a.id < b.id) ∧
  db.fs.Pairwise (fun a b => ¬(a.name = b.name ∧ a.parent_id = b.parent_id)) ∧
  (∀ r ∈ db.fs, ∀ p, r.parent_id = some p → p < db.next_fs_id) ∧
  (∀ d ∈ db.data, d.file_id < db.next_file_id) ∧
  db.data.Pairwise (fun a b => a.file_id ≠ b.file_id) ∧
  (∀ r ∈ db.fs, ∀ f, r.file_id = some f → ∃ d ∈ db.data, d.file_id = f) ∧
  (∀ d ∈ db.data, d.link_count = (refCount db d.file_id : Int)) ∧
  (∀ d ∈ db.data, 0 < refCount db d.file_id)

instance (o : Option Nat) (P : Nat → Prop) [DecidablePred P] :
    Decidable (∀ x, o = some x → P x) :=
  match o with
  | none => isTrue (by simp)
  | some q =>
    if h : P q then isTrue (by simpa using h) else isFalse (by simpa using h)

instance (db : DB) : Decidable (StoreInv db) := by
  unfold StoreInv
  infer_instance

instance {ε α : Type} [DecidableEq ε] [DecidableEq α] : DecidableEq (Except ε α) :=
  fun a b =>
  match a, b with
  | .error e, .error f =>
    if h : e = f then .isTrue (by rw [h]) else .isFalse (by simpa using h)
  | .error _, .ok _ => .isFalse (by simp)
  | .ok _, .error _ => .isFalse (by simp)
  | .ok x, .ok y =>
    if h : x = y then .isTrue (by rw [h]) else .isFalse (by simpa using h)

/-- The store after `write_bytes initDB ["f"] [1]`: one file under the root. -/
def dbC3 : DB :=
  { fs := [⟨ROOT_ID, "root", none, none⟩, ⟨2, "f", some ROOT_ID, some 1⟩]
    next_fs_id := 3
    data := [⟨1, 1, [1]⟩]
    next_file_id := 2 }

/-- The store after `mkdir initDB ["a", "b"] true true`. -/
def dbC4 : DB :=
  { fs := [⟨ROOT_ID, "root", none, none⟩, ⟨2, "a", some ROOT_ID, none⟩,
           ⟨3, "b", some 2, none⟩]
    next_fs_id := 4
    data := []
    next_file_id := 1 }

/-- The store after `write_bytes initDB ["f"] [1]` and then
`hardlink_to _ ["g"] "f"`: two names sharing one Content row. -/
def dbC6 : DB :=
  { fs := [⟨ROOT_ID, "root", none, none⟩, ⟨2, "f", some ROOT_ID, some 1⟩,
           ⟨3, "g", some ROOT_ID, some 1⟩]
    next_fs_id := 4
    data := [⟨1, 2, [1]⟩]
    next_file_id := 2 }

theorem storeInv_init : StoreInv initDB := by decide

/-- `find?` is unchanged by an equivalent predicate. -/
theorem find?_pred_congr {α : Type} {p q : α → Bool} (l : List α)
    (h : ∀ a, p a = q a) : l.find? p = l.find? q := by
  have : p = q := funext h
  rw [this]

/-- A successful `_select_directory` names a directory row of the table. -/
theorem select_directory_mem {db : DB} {s : String} {pid n : Nat}
    (h : select_directory db s pid = .ok n) :
    ∃ r ∈ db.fs, r.name = s ∧ r.parent_id = some pid ∧ r.file_id = none ∧ r.id = n := by
  unfold select_directory at h
  cases hf : db.fs.find?
      (fun r => r.name == s && r.parent_id == some pid && r.file_id == none) with
  | none => rw [hf] at h; exact absurd h (by simp)
  | some r =>
    rw [hf] at h
    have hmem := List.mem_of_find?_eq_some hf
    have hp := List.find?_some hf
    simp only [Bool.and_eq_true, beq_iff_eq] at hp
    exact ⟨r, hmem, hp.1.1, hp.1.2, hp.2, by simpa using h⟩

/-- `_select_directory` fails with NotFound when no directory row matches. -/
theorem select_directory_error {db : DB} {s : String} {pid : Nat}
    (h : ∀ r ∈ db.fs, ¬(r.name = s ∧ r.parent_id = some pid ∧ r.file_id = none)) :
    select_directory db s pid = .error (.notFound s) := by
  unfold select_directory
  have : db.fs.find?
      (fun r => r.name == s && r.parent_id == some pid && r.file_id == none) = none := by
    rw [List.find?_eq_none]
    intro r hr hcontra
    simp only [Bool.and_eq_true, beq_iff_eq] at hcontra
    exact h r hr ⟨hcontra.1.1, hcontra.1.2, hcontra.2⟩
  rw [this]

/-- `_select_directory` results are stable under appending rows to the table. -/
theorem select_directory_append {db db' : DB} {ext : List FsRow}
    (hfs : db'.fs = db.fs ++ ext) {s : String} {pid n : Nat}
    (h : select_directory db s pid = .ok n) : select_directory db' s pid = .ok n := by
  unfold select_directory at h ⊢
  rw [hfs, List.find?_append]
  cases hf : db.fs.find?
      (fun r => r.name == s && r.parent_id == some pid && r.file_id == none) with
  | none => rw [hf] at h; exact absurd h (by simp)
  | some r => rw [hf] at h; simpa using h

/-- The directory-resolution loop is stable under appending rows. -/
theorem resolve_dirs_append {db db' : DB} {ext : List FsRow}
    (hfs : db'.fs = db.fs ++ ext) :
    ∀ {segs : List String} {pid n : Nat},
      resolve_dirs db pid segs = .ok n → resolve_dirs db' pid segs = .ok n := by
  intro segs
  induction segs with
  | nil => intro pid n h; simpa [resolve_dirs] using h
  | cons s rest ih =>
    intro pid n h
    unfold resolve_dirs at h ⊢
    cases hs : select_directory db s pid with
    | error e => rw [hs] at h; exact absurd h (by simp)
    | ok m =>
      rw [hs] at h
      rw [select_directory_append hfs hs]
      exact ih h

/-- The directory-resolution loop only looks at the `fs` table. -/
theorem resolve_dirs_fs_eq {db db' : DB} (hfs : db'.fs = db.fs) :
    ∀ (segs : List String) (pid : Nat),
      resolve_dirs db' pid segs = resolve_dirs db pid segs := by
  intro segs
  induction segs with
  | nil => intro pid; rfl
  | cons s rest ih =>
    intro pid
    unfold resolve_dirs
    have : select_directory db' s pid = select_directory db s pid := by
      unfold select_directory; rw [hfs]
    rw [this]
    cases select_directory db s pid with
    | error e => rfl
    | ok m => exact ih m

/-- Resolution of a concatenation is sequential resolution. -/
theorem resolve_dirs_bind (db : DB) :
    ∀ (l1 l2 : List String) (pid : Nat),
      resolve_dirs db pid (l1 ++ l2) =
        (resolve_dirs db pid l1).bind (fun q => resolve_dirs db q l2) := by
  intro l1
  induction l1 with
  | nil => intro l2 pid; simp [resolve_dirs, Except.bind]
  | cons s rest ih =>
    intro l2 pid
    simp only [List.cons_append, resolve_dirs]
    cases select_directory db s pid with
    | error e => rfl
    | ok m => exact ih l2 m

/-- Successfully resolved directory ids are existing row ids (hence below the
fresh-id counter). -/
theorem resolve_dirs_lt {db : DB} (hlt : ∀ r ∈ db.fs, r.id < db.next_fs_id) :
    ∀ {segs : List String} {pid n : Nat}, pid < db.next_fs_id →
      resolve_dirs db pid segs = .ok n → n < db.next_fs_id := by
  intro segs
  induction segs with
  | nil => intro pid n hp h; simp [resolve_dirs] at h; omega
  | cons s rest ih =>
    intro pid n hp h
    unfold resolve_dirs at h
    cases hs : select_directory db s pid with
    | error e => rw [hs] at h; exact absurd h (by simp)
    | ok m =>
      rw [hs] at h
      obtain ⟨r, hr, -, -, -, hid⟩ := select_directory_mem hs
      exact ih (hid ▸ hlt r hr) h

/-- With unique (name, parent_id) pairs, the untyped node lookup finds the same
row as a successful directory-typed lookup. -/
theorem find?_pair_of_dir {l : List FsRow} {s : String} {pid : Nat} {r : FsRow}
    (huniq : l.Pairwise (fun a b => ¬(a.name = b.name ∧ a.parent_id = b.parent_id)))
    (h : l.find? (fun x => x.name == s && x.parent_id == some pid && x.file_id == none)
          = some r) :
    l.find? (fun x => x.parent_id == some pid && x.name == s) = some r := by
  induction l with
  | nil => simp at h
  | cons a tl ih =>
    rw [List.pairwise_cons] at huniq
    obtain ⟨ha, htl⟩ := huniq
    by_cases hw : (a.parent_id == some pid && a.name == s) = true
    · have hgoal : List.find? (fun x => x.parent_id == some pid && x.name == s) (a :: tl)
          = some a := by
        simp only [List.find?_cons, hw]
      rw [hgoal]
      by_cases hs : (a.name == s && a.parent_id == some pid && a.file_id == none) = true
      · have h2 : some a = some r := by
          simpa only [List.find?_cons, hs] using h
        exact h2
      · have hs' : (a.name == s && a.parent_id == some pid && a.file_id == none) = false := by
          simpa using hs
        have h2 : List.find?
            (fun x => x.name == s && x.parent_id == some pid && x.file_id == none) tl
            = some r := by
          simpa only [List.find?_cons, hs'] using h
        have hrmem := List.mem_of_find?_eq_some h2
        have hrp := List.find?_some h2
        simp only [Bool.and_eq_true, beq_iff_eq] at hrp hw
        exact absurd ⟨hw.2.symm ▸ hrp.1.1.symm, hw.1.symm ▸ hrp.1.2.symm⟩ (ha r hrmem)
    · have hs : ¬(a.name == s && a.parent_id == some pid && a.file_id == none) = true := by
        intro hc
        apply hw
        simp only [Bool.and_eq_true, beq_iff_eq] at hc ⊢
        exact ⟨hc.1.2, hc.1.1⟩
      have hs' : (a.name == s && a.parent_id == some pid && a.file_id == none) = false := by
        simpa using hs
      have hw' : (a.parent_id == some pid && a.name == s) = false := by
        simpa using hw
      have h2 : List.find?
          (fun x => x.name == s && x.parent_id == some pid && x.file_id == none) tl
          = some r := by
        simpa only [List.find?_cons, hs'] using h
      have hgoal : List.find? (fun x => x.parent_id == some pid && x.name == s) (a :: tl)
          = List.find? (fun x => x.parent_id == some pid && x.name == s) tl := by
        simp only [List.find?_cons, hw']
      rw [hgoal]
      exact ih htl h2

/-- With unique (name, parent_id) pairs, `_find_node` agrees with a successful
`_select_directory`. -/
theorem find_node_of_select_directory {db : DB}
    (huniq : db.fs.Pairwise (fun a b => ¬(a.name = b.name ∧ a.parent_id = b.parent_id)))
    {s : String} {pid n : Nat} (h : select_directory db s pid = .ok n) :
    find_node db (some pid) s = .ok (n, none) := by
  unfold select_directory at h
  cases hf : db.fs.find?
      (fun x => x.name == s && x.parent_id == some pid && x.file_id == none) with
  | none => rw [hf] at h; exact absurd h (by simp)
  | some r =>
    rw [hf] at h
    have hid : r.id = n := by simpa using h
    have hfile : r.file_id = none := by
      have := List.find?_some hf
      simp only [Bool.and_eq_true, beq_iff_eq] at this
      exact this.2
    unfold find_node
    rw [find?_pair_of_dir huniq hf]
    show Except.ok (r.id, r.file_id) = Except.ok (n, none)
    rw [hid, hfile]

/-- `_get_file_id` applied to a directory chain followed by a leaf returns the
leaf row's file reference. -/
theorem get_file_id_resolve {db : DB}
    (huniq : db.fs.Pairwise (fun a b => ¬(a.name = b.name ∧ a.parent_id = b.parent_id))) :
    ∀ (pre : List String) (pid q : Nat) (pl : String) (row : FsRow),
      resolve_dirs db pid pre = .ok q →
      db.fs.find? (fun x => x.parent_id == some q && x.name == pl) = some row →
      get_file_id_from db pid (pre ++ [pl]) = .ok row.file_id := by
  intro pre
  induction pre with
  | nil =>
    intro pid q pl row hres hfind
    have hq : pid = q := by simpa [resolve_dirs] using hres
    subst hq
    simp [get_file_id_from, find_node, hfind]
  | cons s rest ih =>
    intro pid q pl row hres hfind
    simp only [resolve_dirs] at hres
    cases hs : select_directory db s pid with
    | error e => rw [hs] at hres; exact absurd hres (by simp)
    | ok m =>
      rw [hs] at hres
      have hfn := find_node_of_select_directory huniq hs
      cases hrp : rest ++ [pl] with
      | nil => exact absurd hrp (by simp)
      | cons a t =>
        have : get_file_id_from db pid (s :: a :: t) = get_file_id_from db m (a :: t) := by
          simp [get_file_id_from, hfn]
        simp only [List.cons_append, hrp, this]
        rw [← hrp]
        exact ih m q pl row hres hfind

/-- A successful `_get_file_id` returns the file reference of some row. -/
theorem get_file_id_from_mem {db : DB} :
    ∀ {segs : List String} {pid : Nat} {v : Option Nat},
      get_file_id_from db pid segs = .ok v → ∃ r ∈ db.fs, r.file_id = v := by
  intro segs
  induction segs with
  | nil => intro pid v h; exact absurd h (by simp [get_file_id_from])
  | cons s rest ih =>
    intro pid v h
    cases rest with
    | nil =>
      simp only [get_file_id_from] at h
      cases hf : find_node db (some pid) s with
      | error e => rw [hf] at h; exact absurd h (by simp)
      | ok p =>
        rw [hf] at h
        obtain ⟨n, fid⟩ := p
        unfold find_node at hf
        cases hff : db.fs.find? (fun r => r.parent_id == some pid && r.name == s) with
        | none => rw [hff] at hf; exact absurd hf (by simp)
        | some r =>
          rw [hff] at hf
          have hr : r.file_id = fid := by simpa using congrArg (fun x => x.snd) (by simpa using hf : (r.id, r.file_id) = (n, fid))
          have hv : fid = v := by simpa using h
          exact ⟨r, List.mem_of_find?_eq_some hff, hv ▸ hr⟩
    | cons a t =>
      simp only [get_file_id_from] at h
      cases hf : find_node db (some pid) s with
      | error e => rw [hf] at h; exact absurd h (by simp)
      | ok p =>
        rw [hf] at h
        exact ih h

/-- On a non-empty path, `_get_file_id` either succeeds or raises
FileNotFoundError (never any other exception). -/
theorem get_file_id_from_ok_or_notFound {db : DB} :
    ∀ {segs : List String} {pid : Nat}, segs ≠ [] →
      (∃ v, get_file_id_from db pid segs = .ok v) ∨
      (∃ s, get_file_id_from db pid segs = .error (.notFound s)) := by
  intro segs
  induction segs with
  | nil => intro pid h; exact absurd rfl h
  | cons s rest ih =>
    intro pid _
    cases rest with
    | nil =>
      cases hf : find_node db (some pid) s with
      | error e =>
        right
        refine ⟨s, ?_⟩
        unfold find_node at hf
        cases hff : db.fs.find? (fun r => r.parent_id == some pid && r.name == s) with
        | none =>
          rw [hff] at hf
          have : e = .notFound s := by simpa using hf.symm
          simp [get_file_id_from, find_node, hff, this]
        | some r => rw [hff] at hf; exact absurd hf (by simp)
      | ok p => left; exact ⟨p.2, by simp [get_file_id_from, hf]⟩
    | cons a t =>
      cases hf : find_node db (some pid) s with
      | error e =>
        right
        refine ⟨s, ?_⟩
        unfold find_node at hf
        cases hff : db.fs.find? (fun r => r.parent_id == some pid && r.name == s) with
        | none =>
          rw [hff] at hf
          have : e = .notFound s := by simpa using hf.symm
          simp [get_file_id_from, find_node, hff, this]
        | some r => rw [hff] at hf; exact absurd hf (by simp)
      | ok p =>
        rcases @ih p.1 (by simp) with ⟨v, hv⟩ | ⟨s', hs'⟩
        · left; exact ⟨v, by simp [get_file_id_from, hf, hv]⟩
        · right; exact ⟨s', by simp [get_file_id_from, hf, hs']⟩

/-- `find?` by file id commutes with a file-id-preserving row update. -/
theorem find?_file_id_map {l : List DataRow} {fid : Nat} (f : DataRow → DataRow)
    (hf : ∀ d, (f d).file_id = d.file_id) :
    (l.map f).find? (fun d => d.file_id == fid) =
      (l.find? (fun d => d.file_id == fid)).map f := by
  rw [List.find?_map]
  congr 1
  apply find?_pred_congr
  intro a
  simp [Function.comp, hf]

theorem refCount_eq_of_fs_eq {db db' : DB} (h : db'.fs = db.fs) (fid : Nat) :
    refCount db' fid = refCount db fid := by
  unfold refCount; rw [h]

theorem refCount_append {db db' : DB} {row : FsRow} (h : db'.fs = db.fs ++ [row]) (fid : Nat) :
    refCount db' fid = refCount db fid + (if row.file_id = some fid then 1 else 0) := by
  unfold refCount
  rw [h, List.filter_append, List.length_append]
  congr 1
  by_cases hr : row.file_id = some fid
  · simp [hr]
  · simp [hr]

/-- The fresh file id has no fs references yet. -/
theorem refCount_fresh {db : DB}
    (hfsdata : ∀ r ∈ db.fs, ∀ f, r.file_id = some f → ∃ d ∈ db.data, d.file_id = f)
    (hdlt : ∀ d ∈ db.data, d.file_id < db.next_file_id) :
    refCount db db.next_file_id = 0 := by
  unfold refCount
  rw [List.length_eq_zero, List.filter_eq_nil_iff]
  intro r hr hpred
  simp only [beq_iff_eq] at hpred
  obtain ⟨d, hd, hdf⟩ := hfsdata r hr _ hpred
  have := hdlt d hd
  omega

/-- Appending a fresh directory row preserves the store invariant. -/
theorem storeInv_append_dir {db db' : DB} {s : String} {pid : Nat}
    (hInv : StoreInv db) (hpid : pid < db.next_fs_id)
    (hnone : ∀ r ∈ db.fs, ¬(r.name = s ∧ r.parent_id = some pid))
    (hfs : db'.fs = db.fs ++ [⟨db.next_fs_id, s, some pid, none⟩])
    (hnext : db'.next_fs_id = db.next_fs_id + 1)
    (hdata : db'.data = db.data) (hnf : db'.next_file_id = db.next_file_id) :
    StoreInv db' := by
  obtain ⟨hroot, hlt, hsort, huniq, hplt, hdlt, hduniq, hfsdata, hlink, hpos⟩ := hInv
  refine ⟨?_, ?_, ?_, ?_, ?_, ?_, ?_, ?_, ?_, ?_⟩
  · rw [hnext]; omega
  · intro r hr
    rw [hfs] at hr
    rw [hnext]
    rcases List.mem_append.mp hr with hr | hr
    · have := hlt r hr; omega
    · simp only [List.mem_singleton] at hr; subst hr; simp
  · rw [hfs, List.pairwise_append]
    refine ⟨hsort, by simp, ?_⟩
    intro a ha b hb
    simp only [List.mem_singleton] at hb
    subst hb
    exact hlt a ha
  · rw [hfs, List.pairwise_append]
    refine ⟨huniq, by simp, ?_⟩
    intro a ha b hb
    simp only [List.mem_singleton] at hb
    subst hb
    exact hnone a ha
  · intro r hr p hp
    rw [hfs] at hr
    rw [hnext]
    rcases List.mem_append.mp hr with hr | hr
    · have := hplt r hr p hp; omega
    · simp only [List.mem_singleton] at hr; subst hr
      simp only at hp
      cases hp
      omega
  · intro d hd
    rw [hdata] at hd
    rw [hnf]
    exact hdlt d hd
  · rw [hdata]; exact hduniq
  · intro r hr f hf
    rw [hfs] at hr
    rw [hdata]
    rcases List.mem_append.mp hr with hr | hr
    · exact hfsdata r hr f hf
    · simp only [List.mem_singleton] at hr; subst hr
      exact absurd hf (by simp)
  · intro d hd
    rw [hdata] at hd
    rw [refCount_append hfs]
    simp only [if_neg (by simp : ¬(none : Option Nat) = some d.file_id), Nat.add_zero]
    exact hlink d hd
  · intro d hd
    rw [hdata] at hd
    rw [refCount_append hfs]
    have := hpos d hd
    omega

/-- A file-id- and link-count-preserving update of the data table preserves the
store invariant. -/
theorem storeInv_map_data {db db' : DB} (f : DataRow → DataRow)
    (hfid : ∀ d, (f d).file_id = d.file_id) (hlc : ∀ d, (f d).link_count = d.link_count)
    (hInv : StoreInv db)
    (hfs : db'.fs = db.fs) (hnext : db'.next_fs_id = db.next_fs_id)
    (hdata : db'.data = db.data.map f) (hnf : db'.next_file_id = db.next_file_id) :
    StoreInv db' := by
  obtain ⟨hroot, hlt, hsort, huniq, hplt, hdlt, hduniq, hfsdata, hlink, hpos⟩ := hInv
  have hrc : ∀ fid, refCount db' fid = refCount db fid :=
    fun fid => refCount_eq_of_fs_eq hfs fid
  refine ⟨?_, ?_, ?_, ?_, ?_, ?_, ?_, ?_, ?_, ?_⟩
  · rw [hnext]; exact hroot
  · intro r hr; rw [hfs] at hr; rw [hnext]; exact hlt r hr
  · rw [hfs]; exact hsort
  · rw [hfs]; exact huniq
  · intro r hr p hp; rw [hfs] at hr; rw [hnext]; exact hplt r hr p hp
  · intro d hd
    rw [hdata] at hd
    obtain ⟨d0, hd0, rfl⟩ := List.mem_map.mp hd
    rw [hnf, hfid]
    exact hdlt d0 hd0
  · rw [hdata, List.pairwise_map]
    have himp : ∀ {a b : DataRow},
        a.file_id ≠ b.file_id → (f a).file_id ≠ (f b).file_id := by
      intro a b hab
      rw [hfid, hfid]
      exact hab
    exact hduniq.imp himp
  · intro r hr fl hf
    rw [hfs] at hr
    rw [hdata]
    obtain ⟨d, hd, hdf⟩ := hfsdata r hr fl hf
    exact ⟨f d, List.mem_map_of_mem f hd, by rw [hfid]; exact hdf⟩
  · intro d hd
    rw [hdata] at hd
    obtain ⟨d0, hd0, rfl⟩ := List.mem_map.mp hd
    rw [hfid, hlc, hrc]
    exact hlink d0 hd0
  · intro d hd
    rw [hdata] at hd
    obtain ⟨d0, hd0, rfl⟩ := List.mem_map.mp hd
    rw [hfid, hrc]
    exact hpos d0 hd0

/-- First write to an absent leaf: appending a fresh Content row (link_count 1)
and an fs row referencing it preserves the store invariant. -/
theorem storeInv_write_fresh {db db' : DB} {s : String} {pid : Nat} {b : Bytes}
    (hInv : StoreInv db) (hpid : pid < db.next_fs_id)
    (hnone : ∀ r ∈ db.fs, ¬(r.name = s ∧ r.parent_id = some pid))
    (hfs : db'.fs = db.fs ++ [⟨db.next_fs_id, s, some pid, some db.next_file_id⟩])
    (hnext : db'.next_fs_id = db.next_fs_id + 1)
    (hdata : db'.data = db.data ++ [⟨db.next_file_id, 1, b⟩])
    (hnf : db'.next_file_id = db.next_file_id + 1) :
    StoreInv db' := by
  obtain ⟨hroot, hlt, hsort, huniq, hplt, hdlt, hduniq, hfsdata, hlink, hpos⟩ := hInv
  have hzero : refCount db db.next_file_id = 0 := refCount_fresh hfsdata hdlt
  refine ⟨?_, ?_, ?_, ?_, ?_, ?_, ?_, ?_, ?_, ?_⟩
  · rw [hnext]; omega
  · intro r hr
    rw [hfs] at hr
    rw [hnext]
    rcases List.mem_append.mp hr with hr | hr
    · have := hlt r hr; omega
    · simp only [List.mem_singleton] at hr; subst hr; simp
  · rw [hfs, List.pairwise_append]
    refine ⟨hsort, by simp, ?_⟩
    intro a ha b hb
    simp only [List.mem_singleton] at hb
    subst hb
    exact hlt a ha
  · rw [hfs, List.pairwise_append]
    refine ⟨huniq, by simp, ?_⟩
    intro a ha b hb
    simp only [List.mem_singleton] at hb
    subst hb
    exact hnone a ha
  · intro r hr p hp
    rw [hfs] at hr
    rw [hnext]
    rcases List.mem_append.mp hr with hr | hr
    · have := hplt r hr p hp; omega
    · simp only [List.mem_singleton] at hr; subst hr
      simp only at hp
      cases hp
      omega
  · intro d hd
    rw [hdata] at hd
    rw [hnf]
    rcases List.mem_append.mp hd with hd | hd
    · have := hdlt d hd; omega
    · simp only [List.mem_singleton] at hd; subst hd; simp
  · rw [hdata, List.pairwise_append]
    refine ⟨hduniq, by simp, ?_⟩
    intro a ha c hc
    simp only [List.mem_singleton] at hc
    subst hc
    have := hdlt a ha
    simp only
    omega
  · intro r hr f hf
    rw [hfs] at hr
    rw [hdata]
    rcases List.mem_append.mp hr with hr | hr
    · obtain ⟨d, hd, hdf⟩ := hfsdata r hr f hf
      exact ⟨d, List.mem_append_left _ hd, hdf⟩
    · simp only [List.mem_singleton] at hr; subst hr
      have hf' : f = db.next_file_id := by
        have hsome : some db.next_file_id = some f := hf
        simpa using hsome.symm
      subst hf'
      exact ⟨⟨db.next_file_id, 1, b⟩, List.mem_append_right _ (by simp), rfl⟩
  · intro d hd
    rw [hdata] at hd
    rw [refCount_append hfs]
    rcases List.mem_append.mp hd with hd | hd
    · have hne := hdlt d hd
      have : ¬((⟨db.next_fs_id, s, some pid, some db.next_file_id⟩ : FsRow).file_id
          = some d.file_id) := by
        simp only
        intro hc
        have heq : db.next_file_id = d.file_id := by simpa using hc
        omega
      rw [if_neg this, Nat.add_zero]
      exact hlink d hd
    · simp only [List.mem_singleton] at hd; subst hd
      simp only
      rw [hzero]
      simp
  · intro d hd
    rw [hdata] at hd
    rw [refCount_append hfs]
    rcases List.mem_append.mp hd with hd | hd
    · have := hpos d hd; omega
    · simp only [List.mem_singleton] at hd; subst hd
      simp only
      rw [hzero]
      simp

/-- Creating a hardlink: appending an fs row referencing an existing Content row
and bumping that row's link_count preserves the store invariant. -/
theorem storeInv_hardlink {db db' : DB} {s : String} {pid fid : Nat}
    (hInv : StoreInv db) (hpid : pid < db.next_fs_id)
    (hnone : ∀ r ∈ db.fs, ¬(r.name = s ∧ r.parent_id = some pid))
    (hd : ∃ d ∈ db.data, d.file_id = fid)
    (hfs : db'.fs = db.fs ++ [⟨db.next_fs_id, s, some pid, some fid⟩])
    (hnext : db'.next_fs_id = db.next_fs_id + 1)
    (hdata : db'.data = db.data.map
      (fun d => if d.file_id == fid then { d with link_count := d.link_count + 1 } else d))
    (hnf : db'.next_file_id = db.next_file_id) :
    StoreInv db' := by
  obtain ⟨hroot, hlt, hsort, huniq, hplt, hdlt, hduniq, hfsdata, hlink, hpos⟩ := hInv
  have hfidpres : ∀ d : DataRow,
      ((fun d => if d.file_id == fid then { d with link_count := d.link_count + 1 } else d) d).file_id
        = d.file_id := by
    intro d
    by_cases hc : (d.file_id == fid) = true
    · simp [hc]
    · simp [hc]
  refine ⟨?_, ?_, ?_, ?_, ?_, ?_, ?_, ?_, ?_, ?_⟩
  · rw [hnext]; omega
  · intro r hr
    rw [hfs] at hr
    rw [hnext]
    rcases List.mem_append.mp hr with hr | hr
    · have := hlt r hr; omega
    · simp only [List.mem_singleton] at hr; subst hr; simp
  · rw [hfs, List.pairwise_append]
    refine ⟨hsort, by simp, ?_⟩
    intro a ha c hc
    simp only [List.mem_singleton] at hc
    subst hc
    exact hlt a ha
  · rw [hfs, List.pairwise_append]
    refine ⟨huniq, by simp, ?_⟩
    intro a ha c hc
    simp only [List.mem_singleton] at hc
    subst hc
    exact hnone a ha
  · intro r hr p hp
    rw [hfs] at hr
    rw [hnext]
    rcases List.mem_append.mp hr with hr | hr
    · have := hplt r hr p hp; omega
    · simp only [List.mem_singleton] at hr; subst hr
      simp only at hp
      cases hp
      omega
  · intro d hd'
    rw [hdata] at hd'
    rw [hnf]
    obtain ⟨d0, hd0, rfl⟩ := List.mem_map.mp hd'
    rw [hfidpres]
    exact hdlt d0 hd0
  · rw [hdata, List.pairwise_map]
    have himp : ∀ {a c : DataRow}, a.file_id ≠ c.file_id →
        ((fun d => if d.file_id == fid then { d with link_count := d.link_count + 1 } else d) a).file_id
          ≠ ((fun d => if d.file_id == fid then { d with link_count := d.link_count + 1 } else d) c).file_id := by
      intro a c hac
      rw [hfidpres, hfidpres]
      exact hac
    exact hduniq.imp himp
  · intro r hr f hf
    rw [hfs] at hr
    rw [hdata]
    rcases List.mem_append.mp hr with hr | hr
    · obtain ⟨d, hdm, hdf⟩ := hfsdata r hr f hf
      refine ⟨_, List.mem_map_of_mem _ hdm, ?_⟩
      rw [hfidpres]
      exact hdf
    · simp only [List.mem_singleton] at hr; subst hr
      simp only at hf
      cases hf
      obtain ⟨d0, hd0, hdf0⟩ := hd
      refine ⟨_, List.mem_map_of_mem _ hd0, ?_⟩
      rw [hfidpres]
      exact hdf0
  · intro d hd'
    rw [hdata] at hd'
    obtain ⟨d0, hd0, rfl⟩ := List.mem_map.mp hd'
    rw [hfidpres, refCount_append hfs]
    have hl := hlink d0 hd0
    by_cases hc : (d0.file_id == fid) = true
    · have hceq : d0.file_id = fid := by simpa using hc
      have hif : ((⟨db.next_fs_id, s, some pid, some fid⟩ : FsRow).file_id
          = some d0.file_id) := by
        simp [hceq]
      rw [if_pos hif]
      have hlc : ((fun d => if d.file_id == fid
            then { d with link_count := d.link_count + 1 } else d) d0).link_count
          = d0.link_count + 1 := by
        simp [hc]
      rw [hlc, hl]
      push_cast
      ring
    · have hcne : d0.file_id ≠ fid := by simpa using hc
      have hif : ¬((⟨db.next_fs_id, s, some pid, some fid⟩ : FsRow).file_id
          = some d0.file_id) := by
        simp only
        intro hcontra
        exact hcne ((by simpa using hcontra : fid = d0.file_id).symm)
      rw [if_neg hif, Nat.add_zero]
      have hlc : ((fun d => if d.file_id == fid
            then { d with link_count := d.link_count + 1 } else d) d0).link_count
          = d0.link_count := by
        simp [hc]
      rw [hlc, hl]
  · intro d hd'
    rw [hdata] at hd'
    obtain ⟨d0, hd0, rfl⟩ := List.mem_map.mp hd'
    rw [hfidpres, refCount_append hfs]
    have := hpos d0 hd0
    omega

/-- Characterization of a successful `_insert_directory`. -/
theorem insert_directory_ok {db db1 : DB} {s : String} {pid n : Nat}
    (h : insert_directory db s pid = .ok (db1, n)) :
    (∀ r ∈ db.fs, ¬(r.name = s ∧ r.parent_id = some pid)) ∧
    db1.fs = db.fs ++ [⟨db.next_fs_id, s, some pid, none⟩] ∧
    db1.next_fs_id = db.next_fs_id + 1 ∧ db1.data = db.data ∧
    db1.next_file_id = db.next_file_id ∧ n = db.next_fs_id := by
  unfold insert_directory at h
  by_cases hany : (db.fs.any (fun r => r.name == s && r.parent_id == some pid)) = true
  · rw [if_pos hany] at h; exact absurd h (by simp)
  · rw [if_neg hany] at h
    simp only [Except.ok.injEq, Prod.mk.injEq] at h
    obtain ⟨hdb, hn⟩ := h
    subst hdb
    refine ⟨?_, rfl, rfl, rfl, rfl, hn.symm⟩
    intro r hr hc
    apply hany
    rw [List.any_eq_true]
    exact ⟨r, hr, by simp [hc.1, hc.2]⟩

/-- Characterization of a successful `_insert_ignore_directory`. -/
theorem insert_ignore_directory_ok {db db1 : DB} {s : String} {pid n : Nat}
    (h : insert_ignore_directory db s pid = .ok (db1, n)) :
    (∃ r, db.fs.find? (fun x => x.name == s && x.parent_id == some pid) = some r ∧
       r.file_id = none ∧ r.id = n ∧ db1 = db) ∨
    ((∀ r ∈ db.fs, ¬(r.name = s ∧ r.parent_id = some pid)) ∧
     db1.fs = db.fs ++ [⟨db.next_fs_id, s, some pid, none⟩] ∧
     db1.next_fs_id = db.next_fs_id + 1 ∧ db1.data = db.data ∧
     db1.next_file_id = db.next_file_id ∧ n = db.next_fs_id) := by
  unfold insert_ignore_directory at h
  split at h
  · rename_i r hf
    split at h
    · exact absurd h (by simp)
    · rename_i hfile
      simp only [Except.ok.injEq, Prod.mk.injEq] at h
      left
      exact ⟨r, hf, hfile, h.2, h.1.symm⟩
  · rename_i hf
    simp only [Except.ok.injEq, Prod.mk.injEq] at h
    obtain ⟨hdb, hn⟩ := h
    subst hdb
    right
    refine ⟨?_, rfl, rfl, rfl, rfl, hn.symm⟩
    intro r hr hc
    have := List.find?_eq_none.mp hf r hr
    simp only [Bool.and_eq_true, beq_iff_eq] at this
    exact this ⟨hc.1, hc.2⟩

/-- Characterization of `_insert_file_overwrite` (it never raises). -/
theorem insert_file_overwrite_cases {db db1 : DB} {s : String} {pid nid : Nat}
    {b : Bytes} {fo : Option Nat}
    (h : insert_file_overwrite db s pid b = (db1, nid, fo)) :
    ((∀ r ∈ db.fs, ¬(r.name = s ∧ r.parent_id = some pid)) ∧
     db1.fs = db.fs ++ [⟨db.next_fs_id, s, some pid, some db.next_file_id⟩] ∧
     db1.next_fs_id = db.next_fs_id + 1 ∧
     db1.data = db.data ++ [⟨db.next_file_id, 1, b⟩] ∧
     db1.next_file_id = db.next_file_id + 1 ∧
     nid = db.next_fs_id ∧ fo = some db.next_file_id) ∨
    (∃ r, db.fs.find? (fun x => x.name == s && x.parent_id == some pid) = some r ∧
      r.file_id = none ∧ db1 = db ∧ nid = r.id ∧ fo = none) ∨
    (∃ r fid, db.fs.find? (fun x => x.name == s && x.parent_id == some pid) = some r ∧
      r.file_id = some fid ∧
      db1.fs = db.fs ∧ db1.next_fs_id = db.next_fs_id ∧
      db1.data = db.data.map
        (fun (d : DataRow) => if d.file_id == fid then { d with data := b } else d) ∧
      db1.next_file_id = db.next_file_id ∧ nid = r.id ∧ fo = some fid) := by
  unfold insert_file_overwrite at h
  split at h
  · rename_i hf
    simp only [Prod.mk.injEq] at h
    obtain ⟨hdb, hnid, hfo⟩ := h
    subst hdb
    left
    refine ⟨?_, rfl, rfl, rfl, rfl, hnid.symm, hfo.symm⟩
    intro r hr hc
    have := List.find?_eq_none.mp hf r hr
    simp only [Bool.and_eq_true, beq_iff_eq] at this
    exact this ⟨hc.1, hc.2⟩
  · rename_i r hf
    split at h
    · rename_i hfile
      simp only [Prod.mk.injEq] at h
      right; left
      exact ⟨r, hf, hfile, h.1.symm, h.2.1.symm, h.2.2.symm⟩
    · rename_i fid hfile
      simp only [Prod.mk.injEq] at h
      obtain ⟨hdb, hnid, hfo⟩ := h
      subst hdb
      right; right
      exact ⟨r, fid, hf, hfile, rfl, rfl, rfl, rfl, hnid.symm, hfo.symm⟩

/-- Characterization of a successful `_insert_hardlink_new`. -/
theorem insert_hardlink_new_ok {db db1 : DB} {s : String} {pid fid n : Nat} {lc : Int}
    (h : insert_hardlink_new db s pid fid = .ok (db1, n, lc)) :
    (∀ r ∈ db.fs, ¬(r.name = s ∧ r.parent_id = some pid)) ∧
    db1.fs = db.fs ++ [⟨db.next_fs_id, s, some pid, some fid⟩] ∧
    db1.next_fs_id = db.next_fs_id + 1 ∧
    db1.data = db.data.map
      (fun (d : DataRow) => if d.file_id == fid
        then { d with link_count := d.link_count + 1 } else d) ∧
    db1.next_file_id = db.next_file_id ∧ n = db.next_fs_id := by
  unfold insert_hardlink_new at h
  split at h
  · exact absurd h (by simp)
  · rename_i hany
    have hnone : ∀ r ∈ db.fs, ¬(r.name = s ∧ r.parent_id = some pid) := by
      intro r hr hc
      apply hany
      rw [List.any_eq_true]
      exact ⟨r, hr, by simp [hc.1, hc.2]⟩
    split at h
    · exact absurd h (by simp)
    · rename_i d hfd
      simp only [Except.ok.injEq, Prod.mk.injEq] at h
      obtain ⟨hdb, hn, -⟩ := h
      subst hdb
      exact ⟨hnone, rfl, rfl, rfl, rfl, hn.symm⟩

/-- `_insert_hardlink_new` succeeds when the name is free and the target Content
row exists. -/
theorem insert_hardlink_new_success {db : DB} {s : String} {pid fid : Nat}
    (hnone : ∀ r ∈ db.fs, ¬(r.name = s ∧ r.parent_id = some pid))
    (hd : ∃ d ∈ db.data, d.file_id = fid) :
    ∃ db1 lc, insert_hardlink_new db s pid fid = .ok (db1, db.next_fs_id, lc) ∧
      db1.fs = db.fs ++ [⟨db.next_fs_id, s, some pid, some fid⟩] ∧
      db1.next_fs_id = db.next_fs_id + 1 ∧
      db1.data = db.data.map
        (fun (d : DataRow) => if d.file_id == fid
          then { d with link_count := d.link_count + 1 } else d) ∧
      db1.next_file_id = db.next_file_id := by
  have hany : (db.fs.any (fun r => r.name == s && r.parent_id == some pid)) = false := by
    rw [List.any_eq_false]
    intro r hr hc
    simp only [Bool.and_eq_true, beq_iff_eq] at hc
    exact hnone r hr ⟨hc.1, hc.2⟩
  obtain ⟨d0, hd0, hdf⟩ := hd
  have hmem : (if d0.file_id == fid then { d0 with link_count := d0.link_count + 1 } else d0)
      ∈ db.data.map (fun (d : DataRow) => if d.file_id == fid
        then { d with link_count := d.link_count + 1 } else d) :=
    List.mem_map_of_mem _ hd0
  have hfind : (db.data.map (fun (d : DataRow) => if d.file_id == fid
        then { d with link_count := d.link_count + 1 } else d)).find?
      (fun d => d.file_id == fid) ≠ none := by
    intro hcontra
    have := List.find?_eq_none.mp hcontra _ hmem
    apply this
    by_cases hc : (d0.file_id == fid) = true
    · simp [hc, hdf]
    · simp [hc, hdf]
  cases hfd : (db.data.map (fun (d : DataRow) => if d.file_id == fid
        then { d with link_count := d.link_count + 1 } else d)).find?
      (fun d => d.file_id == fid) with
  | none => exact absurd hfd hfind
  | some d =>
    refine ⟨{ db with
              fs := db.fs ++ [⟨db.next_fs_id, s, some pid, some fid⟩]
              next_fs_id := db.next_fs_id + 1
              data := db.data.map (fun (d : DataRow) => if d.file_id == fid
                then { d with link_count := d.link_count + 1 } else d) },
            d.link_count, ?_, rfl, rfl, rfl, rfl⟩
    unfold insert_hardlink_new
    rw [if_neg (by simp [hany]), hfd]

/-- Removing a row by its unique id from an id-sorted table splits it cleanly. -/
theorem filter_ne_id_of_sorted {l : List FsRow} {r0 : FsRow}
    (hsort : l.Pairwise (fun a b => a.id < b.id)) (hmem : r0 ∈ l) :
    ∃ l1 l2, l = l1 ++ r0 :: l2 ∧ l.filter (fun r => r.id != r0.id) = l1 ++ l2 := by
  obtain ⟨l1, l2, rfl⟩ := List.append_of_mem hmem
  refine ⟨l1, l2, rfl, ?_⟩
  rw [List.pairwise_append] at hsort
  obtain ⟨h1, h2, hcross⟩ := hsort
  rw [List.pairwise_cons] at h2
  obtain ⟨hr0, h2'⟩ := h2
  rw [List.filter_append]
  have e1 : l1.filter (fun r => r.id != r0.id) = l1 := by
    rw [List.filter_eq_self]
    intro a ha
    have : a.id < r0.id := hcross a ha r0 (by simp)
    simp only [bne_iff_ne, ne_eq]
    omega
  have e2 : (r0 :: l2).filter (fun r => r.id != r0.id) = l2 := by
    rw [List.filter_cons_of_neg (by simp)]
    rw [List.filter_eq_self]
    intro a ha
    have := hr0 a ha
    simp only [bne_iff_ne, ne_eq]
    omega
  rw [e1, e2]

theorem refCount_remove {db db' : DB} {l1 l2 : List FsRow} {r0 : FsRow}
    (hdb : db.fs = l1 ++ r0 :: l2) (hdb' : db'.fs = l1 ++ l2) (f : Nat) :
    refCount db f = refCount db' f + (if r0.file_id = some f then 1 else 0) := by
  unfold refCount
  rw [hdb, hdb', List.filter_append, List.filter_append, List.length_append,
    List.length_append, List.filter_cons]
  by_cases h : r0.file_id = some f
  · rw [if_pos (by simp [h])]
    rw [if_pos h]
    simp only [List.length_cons]
    omega
  · rw [if_neg (by simp [h])]
    rw [if_neg h]
    omega

theorem refCount_pos_of_mem {db : DB} {r : FsRow} {f : Nat}
    (hr : r ∈ db.fs) (hf : r.file_id = some f) : 0 < refCount db f := by
  unfold refCount
  have : r ∈ db.fs.filter (fun x => x.file_id == some f) :=
    List.mem_filter.mpr ⟨hr, by simp [hf]⟩
  exact List.length_pos.mpr (List.ne_nil_of_mem this)

/-- Characterization of a successful (spec-modelled) `unlink`. -/
theorem unlink_ok_cases {db db' : DB} {p : List String} {mo : Bool}
    (h : unlink db p mo = .ok db') :
    db' = db ∨
    (∃ pl pid nid fid, p.getLast? = some pl ∧
       resolve_dirs db ROOT_ID p.dropLast = .ok pid ∧
       find_node db (some pid) pl = .ok (nid, some fid) ∧
       db'.fs = db.fs.filter (fun r => r.id != nid) ∧
       db'.next_fs_id = db.next_fs_id ∧
       db'.data = ((db.data.map (fun (d : DataRow) => if d.file_id == fid
           then { d with link_count := d.link_count - 1 } else d)).filter
           (fun d => !(d.file_id == fid && d.link_count == 0))) ∧
       db'.next_file_id = db.next_file_id) := by
  unfold unlink at h
  split at h
  · exact absurd h (by simp)
  · rename_i pl hlast
    split at h
    · rename_i s hcomp
      split at h
      · left
        simpa using h.symm
      · exact absurd h (by simp)
    · rename_i e hcomp hne
      exact absurd h (by simp)
    · rename_i nid fileId hcomp
      split at h
      · exact absurd h (by simp)
      · rename_i fid2
        right
        simp only [Except.ok.injEq] at h
        subst h
        cases hres : resolve_dirs db ROOT_ID p.dropLast with
        | error e => rw [hres] at hcomp; exact absurd hcomp (by simp)
        | ok pid =>
          rw [hres] at hcomp
          have hfn : find_node db (some pid) pl = .ok (nid, some fid2) := hcomp
          exact ⟨pl, pid, nid, fid2, hlast, rfl, hfn, rfl, rfl, rfl, rfl⟩

/-- The spec-modelled `unlink` preserves the store invariant. -/
theorem unlink_inv {db db' : DB} {p : List String} {mo : Bool}
    (hInv : StoreInv db) (h : unlink db p mo = .ok db') : StoreInv db' := by
  rcases unlink_ok_cases h with rfl | hmain
  · exact hInv
  obtain ⟨pl, pid, nid, fid, hlast, hres, hfn, hfs, hnext, hdata, hnf⟩ := hmain
  obtain ⟨hroot, hlt, hsort, huniq, hplt, hdlt, hduniq, hfsdata, hlink, hpos⟩ := hInv
  unfold find_node at hfn
  cases hff : db.fs.find? (fun r => r.parent_id == some pid && r.name == pl) with
  | none => rw [hff] at hfn; exact absurd hfn (by simp)
  | some r0 =>
    rw [hff] at hfn
    simp only [Except.ok.injEq, Prod.mk.injEq] at hfn
    obtain ⟨hid, hfid⟩ := hfn
    have hmem0 := List.mem_of_find?_eq_some hff
    rw [← hid] at hfs
    obtain ⟨l1, l2, hdec, hfilt⟩ := filter_ne_id_of_sorted hsort hmem0
    rw [hfilt] at hfs
    have hrc : ∀ f, refCount db f = refCount db' f + (if r0.file_id = some f then 1 else 0) :=
      refCount_remove hdec hfs
    have hmemfs : ∀ a ∈ db'.fs, a ∈ db.fs := by
      intro a ha
      rw [hfs] at ha
      rw [hdec]
      rcases List.mem_append.mp ha with ha | ha
      · exact List.mem_append_left _ ha
      · exact List.mem_append_right _ (List.mem_cons_of_mem _ ha)
    have hsub : db'.fs.Sublist db.fs := by
      rw [hfs, hdec]
      exact List.Sublist.append_left (List.sublist_cons_self _ _) l1
    refine ⟨?_, ?_, ?_, ?_, ?_, ?_, ?_, ?_, ?_, ?_⟩
    · rw [hnext]; exact hroot
    · intro r hr; rw [hnext]; exact hlt r (hmemfs r hr)
    · exact hsort.sublist hsub
    · exact huniq.sublist hsub
    · intro r hr q hq; rw [hnext]; exact hplt r (hmemfs r hr) q hq
    · intro d hd
      rw [hdata] at hd
      obtain ⟨hd, -⟩ := List.mem_filter.mp hd
      obtain ⟨d0, hd0, rfl⟩ := List.mem_map.mp hd
      rw [hnf]
      by_cases hc : (d0.file_id == fid) = true
      · simpa [hc] using hdlt d0 hd0
      · simpa [hc] using hdlt d0 hd0
    · rw [hdata]
      have hfidpres : ∀ d : DataRow,
          ((fun (d : DataRow) => if d.file_id == fid
            then { d with link_count := d.link_count - 1 } else d) d).file_id = d.file_id := by
        intro d
        by_cases hc : (d.file_id == fid) = true
        · simp [hc]
        · simp [hc]
      have hmap : (db.data.map (fun (d : DataRow) => if d.file_id == fid
          then { d with link_count := d.link_count - 1 } else d)).Pairwise
          (fun a b => a.file_id ≠ b.file_id) := by
        rw [List.pairwise_map]
        have himp : ∀ {a b : DataRow}, a.file_id ≠ b.file_id →
            ((fun (d : DataRow) => if d.file_id == fid
              then { d with link_count := d.link_count - 1 } else d) a).file_id ≠
            ((fun (d : DataRow) => if d.file_id == fid
              then { d with link_count := d.link_count - 1 } else d) b).file_id := by
          intro a b hab
          rw [hfidpres, hfidpres]
          exact hab
        exact hduniq.imp himp
      exact hmap.sublist (List.filter_sublist _)
    · intro r hr f hf
      rw [hdata]
      obtain ⟨d0, hd0, hdf0⟩ := hfsdata r (hmemfs r hr) f hf
      have hpos' : 0 < refCount db' f := refCount_pos_of_mem hr hf
      by_cases hc : f = fid
      · have hcb : (d0.file_id == fid) = true := by simp [hdf0, hc]
        refine ⟨{ d0 with link_count := d0.link_count - 1 },
          List.mem_filter.mpr ⟨?_, ?_⟩, hdf0⟩
        · have := List.mem_map_of_mem (fun (d : DataRow) => if d.file_id == fid
            then { d with link_count := d.link_count - 1 } else d) hd0
          simpa [hcb] using this
        · have hl := hlink d0 hd0
          rw [hrc d0.file_id, if_pos (by rw [hfid, hdf0, hc])] at hl
          have hlcne : ¬(({ d0 with link_count := d0.link_count - 1 } : DataRow).link_count
              = 0) := by
            simp only
            rw [hl, hdf0]
            push_cast
            omega
          simp [hlcne]
      · have hcb : (d0.file_id == fid) = false := by
          simp only [beq_eq_false_iff_ne, ne_eq]
          rw [hdf0]
          exact hc
        refine ⟨d0, List.mem_filter.mpr ⟨?_, ?_⟩, hdf0⟩
        · have := List.mem_map_of_mem (fun (d : DataRow) => if d.file_id == fid
            then { d with link_count := d.link_count - 1 } else d) hd0
          simpa [hcb] using this
        · simp only [Bool.not_eq_true', Bool.and_eq_false_iff]
          left
          simp only [beq_eq_false_iff_ne, ne_eq]
          rw [hdf0]
          exact hc
    · intro d hd
      rw [hdata] at hd
      obtain ⟨hdm, hkeep⟩ := List.mem_filter.mp hd
      obtain ⟨d0, hd0, rfl⟩ := List.mem_map.mp hdm
      have hl := hlink d0 hd0
      by_cases hc : (d0.file_id == fid) = true
      · have hceq : d0.file_id = fid := by simpa using hc
        rw [hrc d0.file_id, if_pos (by rw [hfid, hceq])] at hl
        rw [if_pos hc]
        show d0.link_count - 1 = ((refCount db' d0.file_id : Nat) : Int)
        rw [hl]
        push_cast
        ring
      · have hif : ¬(r0.file_id = some d0.file_id) := by
          rw [hfid]
          intro hcontra
          exact absurd (by simpa using hcontra : fid = d0.file_id).symm (by simpa using hc)
        rw [hrc d0.file_id, if_neg hif] at hl
        rw [if_neg hc]
        show d0.link_count = ((refCount db' d0.file_id : Nat) : Int)
        simpa using hl
    · intro d hd
      rw [hdata] at hd
      obtain ⟨hdm, hkeep⟩ := List.mem_filter.mp hd
      obtain ⟨d0, hd0, rfl⟩ := List.mem_map.mp hdm
      have hl := hlink d0 hd0
      by_cases hc : (d0.file_id == fid) = true
      · have hceq : d0.file_id = fid := by simpa using hc
        rw [hrc d0.file_id, if_pos (by rw [hfid, hceq])] at hl
        rw [if_pos hc] at hkeep
        rw [if_pos hc]
        show 0 < refCount db' d0.file_id
        have hkeep2 : (!(d0.file_id == fid && (d0.link_count - 1) == 0)) = true := hkeep
        rw [hc] at hkeep2
        simp only [Bool.true_and, Bool.not_eq_true'] at hkeep2
        have hzero : d0.link_count - 1 ≠ 0 := by simpa using hkeep2
        rw [hl] at hzero
        by_contra hcon
        push_neg at hcon
        rw [Nat.le_zero] at hcon
        apply hzero
        rw [hcon]
        simp
      · have hif : ¬(r0.file_id = some d0.file_id) := by
          rw [hfid]
          intro hcontra
          exact absurd (by simpa using hcontra : fid = d0.file_id).symm (by simpa using hc)
        have hp0 := hpos d0 hd0
        rw [hrc d0.file_id, if_neg hif] at hp0
        rw [if_neg hc]
        show 0 < refCount db' d0.file_id
        simpa using hp0

/-- The recursive-ancestor loop of `mkdir(parents=True)` preserves the store
invariant and returns the id of an existing node. -/
theorem mkdir_parents_inv :
    ∀ {segs : List String} {db db1 : DB} {pid q : Nat},
      StoreInv db → pid < db.next_fs_id →
      mkdir_parents db pid segs = .ok (db1, q) →
      StoreInv db1 ∧ q < db1.next_fs_id ∧ (∃ ext, db1.fs = db.fs ++ ext) ∧
        db.next_fs_id ≤ db1.next_fs_id := by
  intro segs
  induction segs with
  | nil =>
    intro db db1 pid q hInv hpid h
    simp only [mkdir_parents, Except.ok.injEq, Prod.mk.injEq] at h
    obtain ⟨rfl, rfl⟩ := h
    exact ⟨hInv, hpid, ⟨[], by simp⟩, le_refl _⟩
  | cons s rest ih =>
    intro db db1 pid q hInv hpid h
    unfold mkdir_parents at h
    cases hins : insert_ignore_directory db s pid with
    | error e => rw [hins] at h; exact absurd h (by simp)
    | ok pr =>
      obtain ⟨dbA, n⟩ := pr
      rw [hins] at h
      rcases insert_ignore_directory_ok hins with
        ⟨r, hff, -, hid, hdbA⟩ | ⟨hnone, hfsA, hnextA, hdataA, hnfA, hn⟩
      · subst hdbA
        have hnlt : n < dbA.next_fs_id := by
          obtain ⟨-, hlt, -⟩ := hInv
          rw [← hid]
          exact hlt r (List.mem_of_find?_eq_some hff)
        exact ih hInv hnlt h
      · have hInvA : StoreInv dbA := storeInv_append_dir hInv hpid hnone hfsA hnextA hdataA hnfA
        have hnlt : n < dbA.next_fs_id := by rw [hnextA, hn]; omega
        obtain ⟨hI, hq, ⟨ext, hext⟩, hle⟩ := ih hInvA hnlt h
        refine ⟨hI, hq, ?_, ?_⟩
        · exact ⟨(⟨db.next_fs_id, s, some pid, none⟩ : FsRow) :: ext, by rw [hext, hfsA]; simp⟩
        · rw [hnextA] at hle
          omega

/-- `mkdir` preserves the store invariant. -/
theorem mkdir_inv {db db' : DB} {p : List String} {parents exist_ok : Bool}
    (hInv : StoreInv db) (h : mkdir db p parents exist_ok = .ok db') : StoreInv db' := by
  have hroot : ROOT_ID < db.next_fs_id := hInv.1
  have hlt : ∀ r ∈ db.fs, r.id < db.next_fs_id := hInv.2.1
  unfold mkdir at h
  split at h
  · exact absurd h (by simp)
  · rename_i db1 parentId heq
    have hstep : StoreInv db1 ∧ parentId < db1.next_fs_id := by
      cases hp : parents with
      | true =>
        rw [hp] at heq
        have heq2 : mkdir_parents db ROOT_ID p.dropLast = .ok (db1, parentId) := heq
        obtain ⟨hI, hq, -, -⟩ := mkdir_parents_inv hInv hroot heq2
        exact ⟨hI, hq⟩
      | false =>
        rw [hp] at heq
        have heq2 : (match resolve_dirs db ROOT_ID p.dropLast with
            | .error e => .error e
            | .ok pid => .ok (db, pid) : Except Err (DB × Nat)) = .ok (db1, parentId) := heq
        cases hres : resolve_dirs db ROOT_ID p.dropLast with
        | error e => rw [hres] at heq2; exact absurd heq2 (by simp)
        | ok m =>
          rw [hres] at heq2
          have heq3 : db = db1 ∧ m = parentId := by simpa using heq2
          obtain ⟨rfl, rfl⟩ := heq3
          exact ⟨hInv, resolve_dirs_lt hlt hroot hres⟩
    obtain ⟨hInv1, hpid1⟩ := hstep
    split at h
    · exact absurd h (by simp)
    · rename_i segment hlast
      split at h
      · cases hins : insert_ignore_directory db1 segment parentId with
        | error e => rw [hins] at h; exact absurd h (by simp)
        | ok pr2 =>
          obtain ⟨db2, n2⟩ := pr2
          rw [hins] at h
          have hdb' : db2 = db' := by simpa using h
          subst hdb'
          rcases insert_ignore_directory_ok hins with
            ⟨r, -, -, -, rfl⟩ | ⟨hnone, hfsA, hnextA, hdataA, hnfA, -⟩
          · exact hInv1
          · exact storeInv_append_dir hInv1 hpid1 hnone hfsA hnextA hdataA hnfA
      · cases hins : insert_directory db1 segment parentId with
        | error e => rw [hins] at h; exact absurd h (by simp)
        | ok pr2 =>
          obtain ⟨db2, n2⟩ := pr2
          rw [hins] at h
          have hdb' : db2 = db' := by simpa using h
          subst hdb'
          obtain ⟨hnone, hfsA, hnextA, hdataA, hnfA, -⟩ := insert_directory_ok hins
          exact storeInv_append_dir hInv1 hpid1 hnone hfsA hnextA hdataA hnfA

/-- `write_bytes` preserves the store invariant. -/
theorem write_bytes_inv {db db' : DB} {p : List String} {b : Bytes}
    (hInv : StoreInv db) (h : write_bytes db p b = .ok db') : StoreInv db' := by
  have hroot : ROOT_ID < db.next_fs_id := hInv.1
  have hlt : ∀ r ∈ db.fs, r.id < db.next_fs_id := hInv.2.1
  unfold write_bytes at h
  split at h
  · exact absurd h (by simp)
  · rename_i segment hlast
    split at h
    · exact absurd h (by simp)
    · rename_i pid hres
      have hpid : pid < db.next_fs_id := resolve_dirs_lt hlt hroot hres
      split at h
      · exact absurd h (by simp)
      · rename_i db1 nid fid heqio
        have hdb' : db1 = db' := by simpa using h
        subst hdb'
        rcases insert_file_overwrite_cases heqio with
          ⟨hnone, hfsA, hnextA, hdataA, hnfA, -, -⟩ |
          ⟨r, -, -, -, -, hfo⟩ |
          ⟨r, fid2, -, -, hfsA, hnextA, hdataA, hnfA, -, -⟩
        · exact storeInv_write_fresh hInv hpid hnone hfsA hnextA hdataA hnfA
        · exact absurd hfo (by simp)
        · exact storeInv_map_data _ (by intro d; by_cases hc : (d.file_id == fid2) = true
              <;> simp [hc])
            (by intro d; by_cases hc : (d.file_id == fid2) = true <;> simp [hc])
            hInv hfsA hnextA hdataA hnfA

/-- `hardlink_to` preserves the store invariant. -/
theorem hardlink_to_inv {db db' : DB} {p : List String} {t : String}
    (hInv : StoreInv db) (h : hardlink_to db p t = .ok db') : StoreInv db' := by
  have hroot : ROOT_ID < db.next_fs_id := hInv.1
  have hlt : ∀ r ∈ db.fs, r.id < db.next_fs_id := hInv.2.1
  unfold hardlink_to at h
  split at h
  · exact absurd h (by simp)
  · rename_i pid hres
    have hpid : pid < db.next_fs_id := resolve_dirs_lt hlt hroot hres
    split at h
    · exact absurd h (by simp)
    · rename_i ts hts
      split at h
      · exact absurd h (by simp)
      · exact absurd h (by simp)
      · rename_i fid hgf
        split at h
        · exact absurd h (by simp)
        · rename_i segment hlast
          split at h
          · exact absurd h (by simp)
          · rename_i db1 n lc hins
            have hdb' : db1 = db' := by simpa using h
            subst hdb'
            obtain ⟨hnone, hfsA, hnextA, hdataA, hnfA, -⟩ := insert_hardlink_new_ok hins
            have hd : ∃ d ∈ db.data, d.file_id = fid := by
              obtain ⟨r, hr, hrf⟩ := get_file_id_from_mem hgf
              exact hInv.2.2.2.2.2.2.2.1 r hr fid hrf
            exact storeInv_hardlink hInv hpid hnone hd hfsA hnextA hdataA hnfA

/-- Every implemented public mutation preserves the store invariant. -/
theorem runOp_inv {db db' : DB} {op : Op}
    (hInv : StoreInv db) (h : runOp db op = .ok db') : StoreInv db' := by
  cases op with
  | mkdirOp s pr eo => exact mkdir_inv hInv h
  | writeOp s d => exact write_bytes_inv hInv h
  | linkOp s t => exact hardlink_to_inv hInv h
  | unlinkOp s m => exact unlink_inv hInv h

/-- Every reachable store state satisfies the invariant. -/
theorem reachable_inv {db : DB} (h : Reachable db) : StoreInv db := by
  induction h with
  | init => exact storeInv_init
  | step hr hok ih => exact runOp_inv ih hok

/-- With unique (name, parent_id) pairs, an untyped lookup that found a
directory row agrees with the directory-typed lookup. -/
theorem find?_dir_of_pair {l : List FsRow} {s : String} {pid : Nat} {r : FsRow}
    (huniq : l.Pairwise (fun a b => ¬(a.name = b.name ∧ a.parent_id = b.parent_id)))
    (h : l.find? (fun x => x.name == s && x.parent_id == some pid) = some r)
    (hr : r.file_id = none) :
    l.find? (fun x => x.name == s && x.parent_id == some pid && x.file_id == none)
      = some r := by
  induction l with
  | nil => simp at h
  | cons a tl ih =>
    rw [List.pairwise_cons] at huniq
    obtain ⟨ha, htl⟩ := huniq
    by_cases hw : (a.name == s && a.parent_id == some pid) = true
    · have h2 : some a = some r := by
        simpa only [List.find?_cons, hw] using h
      have har : a = r := by simpa using h2
      subst har
      have hs : (a.name == s && a.parent_id == some pid && a.file_id == none) = true := by
        simp only [Bool.and_eq_true] at hw ⊢
        exact ⟨hw, by simp [hr]⟩
      simp only [List.find?_cons, hs]
    · have hw' : (a.name == s && a.parent_id == some pid) = false := by simpa using hw
      have hs' : (a.name == s && a.parent_id == some pid && a.file_id == none) = false := by
        simp only [Bool.and_eq_false_iff] at hw' ⊢
        rcases hw' with hw' | hw'
        · left; left; exact hw'
        · left; right; exact hw'
      have h2 : tl.find? (fun x => x.name == s && x.parent_id == some pid) = some r := by
        simpa only [List.find?_cons, hw'] using h
      have hgoal : List.find?
          (fun x => x.name == s && x.parent_id == some pid && x.file_id == none) (a :: tl)
          = List.find?
          (fun x => x.name == s && x.parent_id == some pid && x.file_id == none) tl := by
        simp only [List.find?_cons, hs']
      rw [hgoal]
      exact ih htl h2

theorem dropLast_concat_getLast? {α : Type} :
    ∀ {p : List α} {pl : α}, p.getLast? = some pl → p.dropLast ++ [pl] = p := by
  intro p
  induction p with
  | nil => intro pl h; simp at h
  | cons a tl ih =>
    intro pl h
    cases tl with
    | nil =>
      have hpl : pl = a := by simpa using h.symm
      subst hpl
      simp
    | cons b tl2 =>
      have h2 : (b :: tl2).getLast? = some pl := by
        rw [← h]
        exact List.getLast?_cons_cons.symm
      have := ih h2
      simp only [List.dropLast_cons₂, List.cons_append]
      rw [this]

/-- After a successful recursive-ancestor creation, the created chain resolves
as directories (also in any later state that only appends rows). -/
theorem mkdir_parents_sound :
    ∀ {segs : List String} {db db1 : DB} {pid q : Nat},
      StoreInv db → pid < db.next_fs_id →
      mkdir_parents db pid segs = .ok (db1, q) →
      ∀ {db2 : DB}, (∃ more, db2.fs = db1.fs ++ more) →
        resolve_dirs db2 pid segs = .ok q := by
  intro segs
  induction segs with
  | nil =>
    intro db db1 pid q hInv hpid h db2 hmore
    simp only [mkdir_parents, Except.ok.injEq, Prod.mk.injEq] at h
    obtain ⟨rfl, rfl⟩ := h
    simp [resolve_dirs]
  | cons s rest ih =>
    intro db db1 pid q hInv hpid h db2 hmore
    unfold mkdir_parents at h
    cases hins : insert_ignore_directory db s pid with
    | error e => rw [hins] at h; exact absurd h (by simp)
    | ok pr =>
      obtain ⟨dbA, n⟩ := pr
      rw [hins] at h
      obtain ⟨more, hmore⟩ := hmore
      rcases insert_ignore_directory_ok hins with
        ⟨r, hff, hfile, hid, hdbA⟩ | ⟨hnone, hfsA, hnextA, hdataA, hnfA, hn⟩
      · subst hdbA
        have huniq := hInv.2.2.2.1
        have hnlt : n < dbA.next_fs_id := by
          rw [← hid]
          exact hInv.2.1 r (List.mem_of_find?_eq_some hff)
        obtain ⟨-, -, ⟨ext, hext⟩, -⟩ := mkdir_parents_inv hInv hnlt h
        have hsel : select_directory db2 s pid = .ok n := by
          unfold select_directory
          have hdirfind := find?_dir_of_pair huniq hff hfile
          rw [hmore, hext, List.append_assoc, List.find?_append, hdirfind]
          simp [hid]
        simp only [resolve_dirs]
        rw [hsel]
        exact ih hInv hnlt h ⟨more, hmore⟩
      · have hInvA := storeInv_append_dir hInv hpid hnone hfsA hnextA hdataA hnfA
        have hnlt : n < dbA.next_fs_id := by rw [hnextA, hn]; omega
        have hsel : select_directory db2 s pid = .ok n := by
          unfold select_directory
          have hnonef : db.fs.find?
              (fun x => x.name == s && x.parent_id == some pid && x.file_id == none)
              = none := by
            rw [List.find?_eq_none]
            intro x hx hpx
            simp only [Bool.and_eq_true, beq_iff_eq] at hpx
            exact hnone x hx ⟨hpx.1.1, hpx.1.2⟩
          obtain ⟨ext, hext⟩ := (mkdir_parents_inv hInvA hnlt h).2.2.1
          rw [hmore, hext, hfsA, List.append_assoc, List.append_assoc,
            List.find?_append, hnonef]
          simp [hn]
        simp only [resolve_dirs]
        rw [hsel]
        exact ih hInvA hnlt h ⟨more, hmore⟩

/-- Re-running the recursive-ancestor creation on the resulting state (or any
extension of it by appended rows) finds every node and changes nothing. -/
theorem mkdir_parents_idem :
    ∀ {segs : List String} {db db1 : DB} {pid q : Nat},
      StoreInv db → pid < db.next_fs_id →
      mkdir_parents db pid segs = .ok (db1, q) →
      ∀ {db2 : DB}, (∃ more, db2.fs = db1.fs ++ more) →
        mkdir_parents db2 pid segs = .ok (db2, q) := by
  intro segs
  induction segs with
  | nil =>
    intro db db1 pid q hInv hpid h db2 hmore
    simp only [mkdir_parents, Except.ok.injEq, Prod.mk.injEq] at h
    obtain ⟨rfl, rfl⟩ := h
    simp [mkdir_parents]
  | cons s rest ih =>
    intro db db1 pid q hInv hpid h db2 hmore
    unfold mkdir_parents at h
    cases hins : insert_ignore_directory db s pid with
    | error e => rw [hins] at h; exact absurd h (by simp)
    | ok pr =>
      obtain ⟨dbA, n⟩ := pr
      rw [hins] at h
      obtain ⟨more, hmore⟩ := hmore
      rcases insert_ignore_directory_ok hins with
        ⟨r, hff, hfile, hid, hdbA⟩ | ⟨hnone, hfsA, hnextA, hdataA, hnfA, hn⟩
      · subst hdbA
        have hnlt : n < dbA.next_fs_id := by
          rw [← hid]
          exact hInv.2.1 r (List.mem_of_find?_eq_some hff)
        obtain ⟨-, -, ⟨ext, hext⟩, -⟩ := mkdir_parents_inv hInv hnlt h
        have hins2 : insert_ignore_directory db2 s pid = .ok (db2, n) := by
          unfold insert_ignore_directory
          rw [hmore, hext, List.append_assoc, List.find?_append, hff]
          simp only [Option.or_some]
          rw [hfile, hid]
        simp only [mkdir_parents]
        rw [hins2]
        exact ih hInv hnlt h ⟨more, hmore⟩
      · have hInvA := storeInv_append_dir hInv hpid hnone hfsA hnextA hdataA hnfA
        have hnlt : n < dbA.next_fs_id := by rw [hnextA, hn]; omega
        have hins2 : insert_ignore_directory db2 s pid = .ok (db2, n) := by
          unfold insert_ignore_directory
          have hnonef : db.fs.find? (fun x => x.name == s && x.parent_id == some pid)
              = none := by
            rw [List.find?_eq_none]
            intro x hx hpx
            simp only [Bool.and_eq_true, beq_iff_eq] at hpx
            exact hnone x hx ⟨hpx.1, hpx.2⟩
          obtain ⟨ext, hext⟩ := (mkdir_parents_inv hInvA hnlt h).2.2.1
          rw [hmore, hext, hfsA, List.append_assoc, List.append_assoc,
            List.find?_append, hnonef]
          simp [hn]
        simp only [mkdir_parents]
        rw [hins2]
        exact ih hInvA hnlt h ⟨more, hmore⟩

/-- `read_bytes` returns the stored data of the resolved leaf. -/
theorem read_bytes_of_state {db1 : DB} {p : List String} {pl : String} {pid fid : Nat}
    {row : FsRow} {d : DataRow}
    (hlast : p.getLast? = some pl)
    (hres : resolve_dirs db1 ROOT_ID p.dropLast = .ok pid)
    (hfind : db1.fs.find? (fun r => r.name == pl && r.parent_id == some pid) = some row)
    (hrow : row.file_id = some fid)
    (hd : db1.data.find? (fun x => x.file_id == fid) = some d) :
    read_bytes db1 p = .ok d.data := by
  have hrfe : read_file_existing db1 pl pid = .ok (d.data.length, d.data, fid) := by
    simp only [read_file_existing, hfind, hrow, read_file_id, hd]
  simp only [read_bytes, hlast, hres, hrfe, read_file_id, hd]

/-- `write_bytes` on an existing file leaf overwrites the Content row in place. -/
theorem write_bytes_overwrite {db : DB} {p : List String} {pl : String} {pid fid : Nat}
    {row : FsRow} {b : Bytes}
    (hlast : p.getLast? = some pl)
    (hres : resolve_dirs db ROOT_ID p.dropLast = .ok pid)
    (hfind : db.fs.find? (fun r => r.name == pl && r.parent_id == some pid) = some row)
    (hrow : row.file_id = some fid) :
    write_bytes db p b = .ok (insert_file_overwrite_id db b fid) := by
  have heqio : insert_file_overwrite db pl pid b
      = (insert_file_overwrite_id db b fid, row.id, some fid) := by
    simp only [insert_file_overwrite, hfind, hrow]
  simp only [write_bytes, hlast, hres, heqio]

/-- `write_bytes` succeeds whenever the ancestors resolve and the leaf is not a
directory, and the written bytes are found at the leaf's Content row. -/
theorem write_bytes_success {db : DB} {p : List String} {pl : String} {pid : Nat} {b : Bytes}
    (hInv : StoreInv db)
    (hlast : p.getLast? = some pl)
    (hres : resolve_dirs db ROOT_ID p.dropLast = .ok pid)
    (hnodir : ∀ r ∈ db.fs, r.name = pl → r.parent_id = some pid → r.file_id ≠ none) :
    ∃ db1 row fid d, write_bytes db p b = .ok db1 ∧
      (∃ ext, db1.fs = db.fs ++ ext) ∧
      resolve_dirs db1 ROOT_ID p.dropLast = .ok pid ∧
      db1.fs.find? (fun r => r.name == pl && r.parent_id == some pid) = some row ∧
      row.file_id = some fid ∧
      db1.data.find? (fun x => x.file_id == fid) = some d ∧
      d.data = b := by
  obtain ⟨hroot, hlt, hsort, huniq, hplt, hdlt, hduniq, hfsdata, hlink, hpos⟩ := hInv
  cases hf : db.fs.find? (fun r => r.name == pl && r.parent_id == some pid) with
  | none =>
    have heqio : insert_file_overwrite db pl pid b =
        ({ db with
           fs := db.fs ++ [⟨db.next_fs_id, pl, some pid, some db.next_file_id⟩]
           next_fs_id := db.next_fs_id + 1
           data := db.data ++ [⟨db.next_file_id, 1, b⟩]
           next_file_id := db.next_file_id + 1 }, db.next_fs_id, some db.next_file_id) := by
      simp only [insert_file_overwrite, hf]
    refine ⟨{ db with
              fs := db.fs ++ [⟨db.next_fs_id, pl, some pid, some db.next_file_id⟩]
              next_fs_id := db.next_fs_id + 1
              data := db.data ++ [⟨db.next_file_id, 1, b⟩]
              next_file_id := db.next_file_id + 1 },
      ⟨db.next_fs_id, pl, some pid, some db.next_file_id⟩, db.next_file_id,
      ⟨db.next_file_id, 1, b⟩, ?_, ⟨[⟨db.next_fs_id, pl, some pid, some db.next_file_id⟩], rfl⟩,
      ?_, ?_, rfl, ?_, rfl⟩
    · simp only [write_bytes, hlast, hres, heqio]
    · exact resolve_dirs_append rfl hres
    · show (db.fs ++ [(⟨db.next_fs_id, pl, some pid, some db.next_file_id⟩ : FsRow)]).find?
        (fun r => r.name == pl && r.parent_id == some pid) = _
      rw [List.find?_append, hf]
      simp
    · show (db.data ++ [(⟨db.next_file_id, 1, b⟩ : DataRow)]).find?
        (fun x => x.file_id == db.next_file_id) = _
      rw [List.find?_append]
      have hnone2 : db.data.find? (fun x => x.file_id == db.next_file_id) = none := by
        rw [List.find?_eq_none]
        intro x hx hpx
        simp only [beq_iff_eq] at hpx
        have := hdlt x hx
        omega
      rw [hnone2]
      simp
  | some row =>
    have hp := List.find?_some hf
    simp only [Bool.and_eq_true, beq_iff_eq] at hp
    have hmem := List.mem_of_find?_eq_some hf
    cases hrowf : row.file_id with
    | none => exact absurd hrowf (hnodir row hmem hp.1 hp.2)
    | some fid =>
      have hw : write_bytes db p b = .ok (insert_file_overwrite_id db b fid) :=
        write_bytes_overwrite hlast hres hf hrowf
      obtain ⟨d0, hd0, hdf0⟩ := hfsdata row hmem fid hrowf
      have hsome : (db.data.find? (fun x => x.file_id == fid)).isSome :=
        List.find?_isSome.mpr ⟨d0, hd0, by simp [hdf0]⟩
      obtain ⟨d1, hd1⟩ := Option.isSome_iff_exists.mp hsome
      have hd1p := List.find?_some hd1
      simp only [beq_iff_eq] at hd1p
      have hdmap : (insert_file_overwrite_id db b fid).data.find?
          (fun x => x.file_id == fid) = some { d1 with data := b } := by
        show ((db.data.map (fun (d : DataRow) => if d.file_id == fid
            then { d with data := b } else d)).find? (fun x => x.file_id == fid)) = _
        rw [find?_file_id_map]
        · rw [hd1]
          simp [hd1p]
        · intro d
          by_cases hc : (d.file_id == fid) = true
          · simp [hc]
          · simp [hc]
      have hfseq : (insert_file_overwrite_id db b fid).fs = db.fs := by
        simp [insert_file_overwrite_id]
      refine ⟨_, row, fid, { d1 with data := b }, hw, ⟨[], by simp [hfseq]⟩,
        ?_, ?_, hrowf, hdmap, rfl⟩
      · rw [resolve_dirs_fs_eq hfseq]
        exact hres
      · rw [show (insert_file_overwrite_id db b fid).fs = db.fs from hfseq]
        exact hf

/-- Characterization of a successful `hardlink_to`. -/
theorem hardlink_to_ok_elim {db db' : DB} {q : List String} {t : String}
    (h : hardlink_to db q t = .ok db') :
    ∃ qpid ts fid ql, resolve_dirs db ROOT_ID q.dropLast = .ok qpid ∧
      purePathInit [t] = .ok ts ∧ get_file_id db ts = .ok (some fid) ∧
      q.getLast? = some ql ∧
      (∀ r ∈ db.fs, ¬(r.name = ql ∧ r.parent_id = some qpid)) ∧
      db'.fs = db.fs ++ [⟨db.next_fs_id, ql, some qpid, some fid⟩] ∧
      db'.next_fs_id = db.next_fs_id + 1 ∧
      db'.data = db.data.map (fun (d : DataRow) => if d.file_id == fid
        then { d with link_count := d.link_count + 1 } else d) ∧
      db'.next_file_id = db.next_file_id := by
  unfold hardlink_to at h
  split at h
  · exact absurd h (by simp)
  · rename_i qpid hres
    split at h
    · exact absurd h (by simp)
    · rename_i ts hts
      split at h
      · exact absurd h (by simp)
      · exact absurd h (by simp)
      · rename_i fid hgf
        split at h
        · exact absurd h (by simp)
        · rename_i ql hlast
          split at h
          · exact absurd h (by simp)
          · rename_i db1 n lc hins
            have hdb' : db1 = db' := by simpa using h
            subst hdb'
            obtain ⟨hnone, hfsA, hnextA, hdataA, hnfA, -⟩ := insert_hardlink_new_ok hins
            exact ⟨qpid, ts, fid, ql, hres, hts, hgf, hlast, hnone,
              hfsA, hnextA, hdataA, hnfA⟩

/-- Elimination of a successful `write_bytes`: the leaf ends up as a file whose
Content row holds exactly the written bytes. -/
theorem write_bytes_ok_elim {db db1 : DB} {p : List String} {b : Bytes}
    (hInv : StoreInv db) (h : write_bytes db p b = .ok db1) :
    ∃ pl pid row fid d, p.getLast? = some pl ∧
      resolve_dirs db ROOT_ID p.dropLast = .ok pid ∧
      (∃ ext, db1.fs = db.fs ++ ext) ∧
      resolve_dirs db1 ROOT_ID p.dropLast = .ok pid ∧
      db1.fs.find? (fun r => r.name == pl && r.parent_id == some pid) = some row ∧
      row.file_id = some fid ∧
      db1.data.find? (fun x => x.file_id == fid) = some d ∧ d.data = b := by
  obtain ⟨hroot, hlt, hsort, huniq, hplt, hdlt, hduniq, hfsdata, hlink, hpos⟩ := hInv
  unfold write_bytes at h
  split at h
  · exact absurd h (by simp)
  · rename_i pl hlast
    split at h
    · exact absurd h (by simp)
    · rename_i pid hres
      split at h
      · exact absurd h (by simp)
      · rename_i db1' nid fid heqio
        have hdb1 : db1' = db1 := by simpa using h
        subst hdb1
        refine ⟨pl, pid, ?_⟩
        rcases insert_file_overwrite_cases heqio with
          ⟨hnone, hfsA, hnextA, hdataA, hnfA, -, hfo⟩ |
          ⟨r, -, -, -, -, hfo⟩ |
          ⟨r, fid2, hf, hrowf, hfsA, hnextA, hdataA, hnfA, -, hfo⟩
        · have hfid : fid = db.next_file_id := by simpa using hfo
          subst hfid
          refine ⟨⟨db.next_fs_id, pl, some pid, some db.next_file_id⟩, db.next_file_id,
            ⟨db.next_file_id, 1, b⟩, hlast, hres, ⟨_, hfsA⟩,
            resolve_dirs_append hfsA hres, ?_, rfl, ?_, rfl⟩
          · rw [hfsA, List.find?_append]
            have hnonef : db.fs.find?
                (fun r => r.name == pl && r.parent_id == some pid) = none := by
              rw [List.find?_eq_none]
              intro x hx hpx
              simp only [Bool.and_eq_true, beq_iff_eq] at hpx
              exact hnone x hx ⟨hpx.1, hpx.2⟩
            rw [hnonef]
            simp
          · rw [hdataA, List.find?_append]
            have hnone2 : db.data.find? (fun x => x.file_id == db.next_file_id) = none := by
              rw [List.find?_eq_none]
              intro x hx hpx
              simp only [beq_iff_eq] at hpx
              have := hdlt x hx
              omega
            rw [hnone2]
            simp
        · exact absurd hfo (by simp)
        · have hfid : fid = fid2 := by simpa using hfo
          subst hfid
          have hmem := List.mem_of_find?_eq_some hf
          obtain ⟨d0, hd0, hdf0⟩ := hfsdata r hmem fid hrowf
          have hsome : (db.data.find? (fun x => x.file_id == fid)).isSome :=
            List.find?_isSome.mpr ⟨d0, hd0, by simp [hdf0]⟩
          obtain ⟨d1, hd1⟩ := Option.isSome_iff_exists.mp hsome
          have hd1p := List.find?_some hd1
          simp only [beq_iff_eq] at hd1p
          refine ⟨r, fid, { d1 with data := b }, hlast, hres, ⟨[], by simp [hfsA]⟩, ?_, ?_,
            hrowf, ?_, rfl⟩
          · rw [resolve_dirs_fs_eq hfsA]
            exact hres
          · rw [hfsA]
            exact hf
          · rw [hdataA, find?_file_id_map]
            · rw [hd1]
              simp [hd1p]
            · intro d
              by_cases hc : (d.file_id == fid) = true
              · simp [hc]
              · simp [hc]

/-- C9: the pure-path constructor rejects any supplied raw segment that begins
with the path separator "/" by raising a ValueError, so no path object is
produced. -/
theorem C9_purepath_rejects_leading_slash (ps : List String) (s : String)
    (hs : s ∈ ps) (h : startsWithSlash s = true) :
    purePathInit ps
      = .error (.valueError "paths starting with / are currently not supported") := by
  unfold purePathInit
  rw [if_pos]
  rw [List.any_eq_true]
  exact ⟨s, hs, h⟩

theorem C9_witness :
    ("/a" ∈ ["/a", "b"]) ∧ startsWithSlash "/a" = true ∧
    purePathInit ["/a", "b"]
      = .error (.valueError "paths starting with / are currently not supported") :=
  ⟨by simp, by decide,
    C9_purepath_rejects_leading_slash ["/a", "b"] "/a" (by simp) (by decide)⟩

/-- C10: on any store state and non-empty path, `is_file` and `is_dir` are never
both true, `exists` is true exactly when one of them is (all computed from the
same `_get_file_id` resolution), and all three are false when the path does not
resolve. -/
theorem C10_exists_is_file_is_dir (db : DB) (p : List String) (hne : p ≠ []) :
    ∃ e f d : Bool, exists_ db p = .ok e ∧ is_file db p = .ok f ∧ is_dir db p = .ok d ∧
      ¬(f = true ∧ d = true) ∧
      (e = true ↔ (f = true ∨ d = true)) ∧
      (∀ v, get_file_id db p = .ok v → e = true) ∧
      (∀ s, get_file_id db p = .error (.notFound s) → e = false ∧ f = false ∧ d = false) := by
  rcases @get_file_id_from_ok_or_notFound db p ROOT_ID hne with ⟨v, hv⟩ | ⟨s, hs⟩
  · have hv' : get_file_id db p = .ok v := hv
    refine ⟨true, v.isSome, v.isNone, ?_, ?_, ?_, ?_, ?_, ?_, ?_⟩
    · simp [exists_, hv']
    · simp [is_file, hv']
    · simp [is_dir, hv']
    · cases v <;> simp
    · cases v <;> simp
    · intro w hw; rfl
    · intro s' hs'
      rw [hv'] at hs'
      exact absurd hs' (by simp)
  · have hs' : get_file_id db p = .error (.notFound s) := hs
    refine ⟨false, false, false, ?_, ?_, ?_, ?_, ?_, ?_, ?_⟩
    · simp [exists_, hs']
    · simp [is_file, hs']
    · simp [is_dir, hs']
    · simp
    · simp
    · intro w hw
      rw [hs'] at hw
      exact absurd hw (by simp)
    · intro s2 hs2
      exact ⟨rfl, rfl, rfl⟩

theorem C10_witness :
    ∃ e f d : Bool, exists_ initDB ["a"] = .ok e ∧ is_file initDB ["a"] = .ok f ∧
      is_dir initDB ["a"] = .ok d ∧
      ¬(f = true ∧ d = true) ∧
      (e = true ↔ (f = true ∨ d = true)) ∧
      (∀ v, get_file_id initDB ["a"] = .ok v → e = true) ∧
      (∀ s, get_file_id initDB ["a"] = .error (.notFound s) →
        e = false ∧ f = false ∧ d = false) :=
  C10_exists_is_file_is_dir initDB ["a"] (by simp)

/-- C5: when the strict directory-typed resolution hits a position that is
absent or occupied by a file, non-recursive mkdir, read_bytes, write_bytes and
iterdir all fail with NotFound naming that segment (never a type error). -/
theorem C5_strict_resolution_notfound
    (db : DB) (pre mid : List String) (s leaf : String) (d : Bytes) (pid : Nat) (eo : Bool)
    (hres : resolve_dirs db ROOT_ID pre = .ok pid)
    (hnodir : ∀ r ∈ db.fs, ¬(r.name = s ∧ r.parent_id = some pid ∧ r.file_id = none)) :
    mkdir db ((pre ++ s :: mid) ++ [leaf]) false eo = .error (.notFound s) ∧
    read_bytes db ((pre ++ s :: mid) ++ [leaf]) = .error (.notFound s) ∧
    write_bytes db ((pre ++ s :: mid) ++ [leaf]) d = .error (.notFound s) ∧
    iterdir db (pre ++ s :: mid) = .error (.notFound s) := by
  have hsel := select_directory_error hnodir
  have hresbad : resolve_dirs db ROOT_ID (pre ++ s :: mid) = .error (.notFound s) := by
    rw [resolve_dirs_bind, hres]
    show resolve_dirs db pid (s :: mid) = _
    simp only [resolve_dirs]
    rw [hsel]
  have hdrop : ((pre ++ s :: mid) ++ [leaf]).dropLast = pre ++ s :: mid :=
    List.dropLast_concat
  have hlastx : ((pre ++ s :: mid) ++ [leaf]).getLast? = some leaf :=
    List.getLast?_concat _
  refine ⟨?_, ?_, ?_, ?_⟩
  · simp only [mkdir, hdrop, hresbad, Bool.false_eq_true, if_false]
  · simp only [read_bytes, hlastx, hdrop, hresbad]
  · simp only [write_bytes, hlastx, hdrop, hresbad]
  · simp only [iterdir, hresbad]

theorem C5_witness :
    mkdir initDB (([] ++ "missing" :: []) ++ ["f"]) false false
        = .error (.notFound "missing") ∧
    read_bytes initDB (([] ++ "missing" :: []) ++ ["f"]) = .error (.notFound "missing") ∧
    write_bytes initDB (([] ++ "missing" :: []) ++ ["f"]) [7]
        = .error (.notFound "missing") ∧
    iterdir initDB ([] ++ "missing" :: []) = .error (.notFound "missing") :=
  C5_strict_resolution_notfound initDB [] [] "missing" "f" [7] ROOT_ID false rfl
    (by decide)

/-- C3: in every reachable store state, each Content row's link_count equals the
number of TreeNode rows referencing it, and no Content row with zero references
survives (every Content row has at least one referencing TreeNode row). -/
theorem C3_link_count_reachable (db : DB) (hreach : Reachable db) :
    ∀ d ∈ db.data, d.link_count = (refCount db d.file_id : Int) ∧
      0 < refCount db d.file_id := by
  have hInv := reachable_inv hreach
  intro d hd
  exact ⟨hInv.2.2.2.2.2.2.2.2.1 d hd, hInv.2.2.2.2.2.2.2.2.2 d hd⟩

/-- C1: writing bytes to a path whose ancestors all resolve as directories and
whose leaf is not a directory, then reading it back, returns exactly the
written bytes (including the empty sequence). -/
theorem C1_write_then_read (db : DB) (p : List String) (pl : String) (pid : Nat) (b : Bytes)
    (hInv : StoreInv db)
    (hlast : p.getLast? = some pl)
    (hres : resolve_dirs db ROOT_ID p.dropLast = .ok pid)
    (hnodir : ∀ r ∈ db.fs, r.name = pl → r.parent_id = some pid → r.file_id ≠ none) :
    ∃ db1, write_bytes db p b = .ok db1 ∧ read_bytes db1 p = .ok b := by
  obtain ⟨db1, row, fid, d, hw, -, hres1, hfind1, hrow1, hd1, hdb⟩ :=
    write_bytes_success hInv hlast hres hnodir
  exact ⟨db1, hw, hdb ▸ read_bytes_of_state hlast hres1 hfind1 hrow1 hd1⟩

theorem C1_witness :
    (∃ db1, write_bytes initDB ["f"] [] = .ok db1 ∧ read_bytes db1 ["f"] = .ok []) ∧
    (∃ db1, write_bytes initDB ["f"] [1, 2] = .ok db1 ∧
      read_bytes db1 ["f"] = .ok [1, 2]) :=
  ⟨C1_write_then_read initDB ["f"] "f" ROOT_ID [] storeInv_init rfl rfl (by decide),
   C1_write_then_read initDB ["f"] "f" ROOT_ID [1, 2] storeInv_init rfl rfl (by decide)⟩

theorem C3_witness :
    (⟨1, 1, [1]⟩ : DataRow).link_count
        = (refCount dbC3 (⟨1, 1, [1]⟩ : DataRow).file_id : Int) ∧
      0 < refCount dbC3 (⟨1, 1, [1]⟩ : DataRow).file_id :=
  C3_link_count_reachable dbC3
    (Reachable.step Reachable.init
      (show runOp initDB (.writeOp ["f"] [1]) = .ok dbC3 by decide))
    ⟨1, 1, [1]⟩ (by decide)

/-- `mkdir` with `parents = true` and `exist_ok = true`, with both literal
Boolean tests reduced. -/
theorem mkdir_true_true (db : DB) (p : List String) :
    mkdir db p true true =
      match mkdir_parents db ROOT_ID p.dropLast with
      | .error e => .error e
      | .ok (db1, parentId) =>
        match p.getLast? with
        | none => .error .indexError
        | some segment =>
          match insert_ignore_directory db1 segment parentId with
          | .error e => .error e
          | .ok (db2, _) => .ok db2 := rfl

/-- C4: once `mkdir(p, parents=true, exist_ok=true)` has succeeded on a
well-formed store, running it again on the result succeeds and returns the very
same store state: the call is idempotent. -/
theorem C4_mkdir_recursive_idempotent (db db' : DB) (p : List String)
    (hInv : StoreInv db) (h : mkdir db p true true = .ok db') :
    mkdir db' p true true = .ok db' := by
  have hroot : ROOT_ID < db.next_fs_id := hInv.1
  rw [mkdir_true_true] at h
  split at h
  · exact absurd h (by simp)
  · rename_i db1 parentId heq2
    split at h
    · exact absurd h (by simp)
    · rename_i pl hlast
      cases hins : insert_ignore_directory db1 pl parentId with
      | error e => rw [hins] at h; exact absurd h (by simp)
      | ok pr =>
        obtain ⟨db2, n2⟩ := pr
        rw [hins] at h
        have hdb2 : db2 = db' := by simpa using h
        rw [hdb2] at hins
        obtain ⟨hInv1, hpid1, ⟨ext1, hext1⟩, -⟩ := mkdir_parents_inv hInv hroot heq2
        rcases insert_ignore_directory_ok hins with
          ⟨r, hff, hfile, hid, hdbe⟩ | ⟨hnone, hfsA, hnextA, hdataA, hnfA, hn⟩
        · have hmp2 : mkdir_parents db' ROOT_ID p.dropLast = .ok (db', parentId) :=
            mkdir_parents_idem hInv hroot heq2 ⟨[], by rw [hdbe]; simp⟩
          have hins2 : insert_ignore_directory db' pl parentId = .ok (db', r.id) := by
            rw [hdbe]
            simp only [insert_ignore_directory, hff, hfile]
          simp only [mkdir_true_true, hmp2, hlast, hins2]
        · have hmp2 : mkdir_parents db' ROOT_ID p.dropLast = .ok (db', parentId) :=
            mkdir_parents_idem hInv hroot heq2 ⟨_, hfsA⟩
          have hnonef : db1.fs.find?
              (fun x => x.name == pl && x.parent_id == some parentId) = none := by
            rw [List.find?_eq_none]
            intro x hx hpx
            simp only [Bool.and_eq_true, beq_iff_eq] at hpx
            exact hnone x hx ⟨hpx.1, hpx.2⟩
          have hins2 : insert_ignore_directory db' pl parentId
              = .ok (db', db1.next_fs_id) := by
            unfold insert_ignore_directory
            rw [hfsA, List.find?_append, hnonef]
            simp
          simp only [mkdir_true_true, hmp2, hlast, hins2]

theorem C4_witness : mkdir dbC4 ["a", "b"] true true = .ok dbC4 :=
  C4_mkdir_recursive_idempotent initDB dbC4 ["a", "b"] storeInv_init (by decide)

/-- C7: for a directory that resolves, `iterdir` succeeds and returns exactly
the immediate children (each one segment longer, with node id and file state),
listed in ascending node-id (creation) order; and a directory just created by
`mkdir` has no children, so `iterdir` on it returns the empty list. -/
theorem C7_iterdir_children (db : DB) (dsegs : List String) (hInv : StoreInv db) :
    (∀ pid, resolve_dirs db ROOT_ID dsegs = .ok pid →
      ∃ l, iterdir db dsegs = .ok l ∧
        (∀ e : Entry, e ∈ l ↔ ∃ r ∈ db.fs, r.parent_id = some pid ∧
            e = ⟨dsegs ++ [r.name], r.id, r.file_id⟩) ∧
        l.Pairwise (fun a b => a.node_id < b.node_id)) ∧
    (∀ parents db', mkdir db dsegs parents false = .ok db' →
      iterdir db' dsegs = .ok []) := by
  constructor
  · intro pid hres
    refine ⟨(db.fs.filter (fun r => r.parent_id == some pid)).map
        (fun r => (⟨dsegs ++ [r.name], r.id, r.file_id⟩ : Entry)), ?_, ?_, ?_⟩
    · simp only [iterdir, hres]
    · intro e
      constructor
      · intro he
        simp only [List.mem_map, List.mem_filter, beq_iff_eq] at he
        obtain ⟨r, ⟨hr, hp⟩, hge⟩ := he
        exact ⟨r, hr, hp, hge.symm⟩
      · rintro ⟨r, hr, hp, hge⟩
        simp only [List.mem_map, List.mem_filter, beq_iff_eq]
        exact ⟨r, ⟨hr, hp⟩, hge.symm⟩
    · rw [List.pairwise_map]
      exact (hInv.2.2.1.sublist (List.filter_sublist _)).imp (fun hab => hab)
  · intro parents db' h
    have hroot : ROOT_ID < db.next_fs_id := hInv.1
    unfold mkdir at h
    split at h
    · exact absurd h (by simp)
    · rename_i db1 parentId heq
      split at h
      · exact absurd h (by simp)
      · rename_i pl hlast
        have h3 : (match insert_directory db1 pl parentId with
            | .error e => .error e
            | .ok (db2, _) => .ok db2 : Except Err DB) = .ok db' := h
        cases hins : insert_directory db1 pl parentId with
        | error e => rw [hins] at h3; exact absurd h3 (by simp)
        | ok pr =>
          obtain ⟨db2, n2⟩ := pr
          rw [hins] at h3
          have hdb2 : db2 = db' := by simpa using h3
          rw [hdb2] at hins
          obtain ⟨hnone, hfsA, hnextA, hdataA, hnfA, hn⟩ := insert_directory_ok hins
          have hstep : StoreInv db1 ∧ parentId < db1.next_fs_id ∧
              resolve_dirs db' ROOT_ID dsegs.dropLast = .ok parentId := by
            cases hp : parents with
            | true =>
              rw [hp] at heq
              have heq2 : mkdir_parents db ROOT_ID dsegs.dropLast
                  = .ok (db1, parentId) := heq
              obtain ⟨hI, hq, hext, -⟩ := mkdir_parents_inv hInv hroot heq2
              exact ⟨hI, hq, mkdir_parents_sound hInv hroot heq2 ⟨_, hfsA⟩⟩
            | false =>
              rw [hp] at heq
              have heq2 : (match resolve_dirs db ROOT_ID dsegs.dropLast with
                  | .error e => .error e
                  | .ok pid => .ok (db, pid) : Except Err (DB × Nat))
                  = .ok (db1, parentId) := heq
              cases hres : resolve_dirs db ROOT_ID dsegs.dropLast with
              | error e => rw [hres] at heq2; exact absurd heq2 (by simp)
              | ok m =>
                rw [hres] at heq2
                have heq3 : db = db1 ∧ m = parentId := by simpa using heq2
                obtain ⟨rfl, rfl⟩ := heq3
                refine ⟨hInv, resolve_dirs_lt hInv.2.1 hroot hres, ?_⟩
                exact resolve_dirs_append hfsA hres
          obtain ⟨hInv1, hpid1, hresanc⟩ := hstep
          have hsel : select_directory db' pl parentId = .ok db1.next_fs_id := by
            unfold select_directory
            have hnonef : db1.fs.find?
                (fun x => x.name == pl && x.parent_id == some parentId
                  && x.file_id == none) = none := by
              rw [List.find?_eq_none]
              intro x hx hpx
              simp only [Bool.and_eq_true, beq_iff_eq] at hpx
              exact hnone x hx ⟨hpx.1.1, hpx.1.2⟩
            rw [hfsA, List.find?_append, hnonef]
            simp
          have hd : dsegs = dsegs.dropLast ++ [pl] := (dropLast_concat_getLast? hlast).symm
          have hresfull : resolve_dirs db' ROOT_ID dsegs = .ok db1.next_fs_id := by
            rw [hd, resolve_dirs_bind, hresanc]
            show resolve_dirs db' parentId [pl] = _
            simp only [resolve_dirs]
            rw [hsel]
          simp only [iterdir, hresfull]
          have hfilter : db'.fs.filter (fun r => r.parent_id == some db1.next_fs_id)
              = [] := by
            rw [List.filter_eq_nil_iff]
            intro r hr hpr
            simp only [beq_iff_eq] at hpr
            rw [hfsA] at hr
            rcases List.mem_append.mp hr with hr | hr
            · have := hInv1.2.2.2.2.1 r hr db1.next_fs_id hpr
              omega
            · simp only [List.mem_singleton] at hr
              subst hr
              have : parentId = db1.next_fs_id := by simpa using hpr
              omega
          rw [hfilter]
          simp

theorem C7_witness :
    (∀ pid, resolve_dirs dbC4 ROOT_ID ["a"] = .ok pid →
      ∃ l, iterdir dbC4 ["a"] = .ok l ∧
        (∀ e : Entry, e ∈ l ↔ ∃ r ∈ dbC4.fs, r.parent_id = some pid ∧
            e = ⟨["a"] ++ [r.name], r.id, r.file_id⟩) ∧
        l.Pairwise (fun a b => a.node_id < b.node_id)) ∧
    (∀ parents db', mkdir dbC4 ["a"] parents false = .ok db' →
      iterdir db' ["a"] = .ok []) :=
  C7_iterdir_children dbC4 ["a"] (by decide)

/-- C2: (spec-modelled `unlink`) with the ancestors resolving, unlink fails
with NotFound when the leaf is absent unless `missing_ok` is set (in which case
the store is unchanged), fails with PermissionDenied when the leaf is a
directory, and otherwise deletes the leaf's TreeNode row, decrements the
referenced Content row's link_count and deletes that row when the count
reaches 0, all in one step. -/
theorem C2_unlink_semantics (db : DB) (p : List String) (pl : String) (pid : Nat)
    (hlast : p.getLast? = some pl)
    (hres : resolve_dirs db ROOT_ID p.dropLast = .ok pid) :
    (∀ s, find_node db (some pid) pl = .error (.notFound s) →
      unlink db p false = .error (.notFound s) ∧ unlink db p true = .ok db) ∧
    (∀ nid, find_node db (some pid) pl = .ok (nid, none) →
      ∀ mo, unlink db p mo = .error (.permissionDenied (pl ++ " is a directory"))) ∧
    (∀ nid fid, find_node db (some pid) pl = .ok (nid, some fid) →
      ∀ mo, unlink db p mo = .ok { db with
        fs := db.fs.filter (fun r => r.id != nid)
        data := (db.data.map (fun (d : DataRow) => if d.file_id == fid
          then { d with link_count := d.link_count - 1 } else d)).filter
          (fun d => !(d.file_id == fid && d.link_count == 0)) }) := by
  refine ⟨?_, ?_, ?_⟩
  · intro s hfn
    constructor
    · simp [unlink, hlast, hres, hfn]
    · simp [unlink, hlast, hres, hfn]
  · intro nid hfn mo
    simp [unlink, hlast, hres, hfn]
  · intro nid fid hfn mo
    simp only [unlink, hlast, hres, hfn]

theorem C2_witness :
    unlink dbC3 ["f"] false = .ok { dbC3 with
      fs := dbC3.fs.filter (fun r => r.id != 2)
      data := (dbC3.data.map (fun (d : DataRow) => if d.file_id == 1
        then { d with link_count := d.link_count - 1 } else d)).filter
        (fun d => !(d.file_id == 1 && d.link_count == 0)) } :=
  (C2_unlink_semantics dbC3 ["f"] "f" ROOT_ID rfl rfl).2.2 2 1 (by decide) false

/-- C8: with the new path's ancestors resolving to a directory, `hardlink_to`
fails with NotFound when the target does not resolve, with PermissionDenied
when the target is a directory, with AlreadyExists when the new leaf name is
taken (by a file or a directory); on success it inserts the new TreeNode
referencing the target's content and increments that Content row's
link_count, in the same step. -/
theorem C8_hardlink_taxonomy (db : DB) (q : List String) (t : String)
    (ts : List String) (pid : Nat) (ql : String)
    (hInv : StoreInv db)
    (hres : resolve_dirs db ROOT_ID q.dropLast = .ok pid)
    (hlast : q.getLast? = some ql)
    (hparse : purePathInit [t] = .ok ts) :
    (∀ s, get_file_id db ts = .error (.notFound s) →
        hardlink_to db q t = .error (.notFound s)) ∧
    (get_file_id db ts = .ok none → hardlink_to db q t = .error (.permissionDenied t)) ∧
    (∀ fid, get_file_id db ts = .ok (some fid) →
        (∃ r ∈ db.fs, r.name = ql ∧ r.parent_id = some pid) →
        hardlink_to db q t = .error (.alreadyExists ql)) ∧
    (∀ fid, get_file_id db ts = .ok (some fid) →
        (∀ r ∈ db.fs, ¬(r.name = ql ∧ r.parent_id = some pid)) →
        ∃ db', hardlink_to db q t = .ok db' ∧
          db'.fs = db.fs ++ [⟨db.next_fs_id, ql, some pid, some fid⟩] ∧
          (∀ d ∈ db.data, d.file_id = fid →
            ({ d with link_count := d.link_count + 1 } : DataRow) ∈ db'.data) ∧
          (∀ d ∈ db.data, d.file_id ≠ fid → d ∈ db'.data)) := by
  refine ⟨?_, ?_, ?_, ?_⟩
  · intro s hgf
    simp only [hardlink_to, hres, hparse, hgf]
  · intro hgf
    simp only [hardlink_to, hres, hparse, hgf]
  · intro fid hgf hconf
    obtain ⟨r, hr, hrn, hrp⟩ := hconf
    have hinsf : insert_hardlink_new db ql pid fid = .error (.alreadyExists ql) := by
      unfold insert_hardlink_new
      rw [if_pos]
      rw [List.any_eq_true]
      exact ⟨r, hr, by simp [hrn, hrp]⟩
    simp only [hardlink_to, hres, hparse, hgf, hlast, hinsf]
  · intro fid hgf hnone
    have hgf2 : get_file_id_from db ROOT_ID ts = .ok (some fid) := hgf
    obtain ⟨r0, hr0, hrf0⟩ := get_file_id_from_mem hgf2
    obtain ⟨d0, hd0, hdf0⟩ := hInv.2.2.2.2.2.2.2.1 r0 hr0 fid hrf0
    obtain ⟨db1, lc, hsucc, hfs1, hnext1, hdata1, hnf1⟩ :=
      insert_hardlink_new_success hnone ⟨d0, hd0, hdf0⟩
    refine ⟨db1, ?_, hfs1, ?_, ?_⟩
    · simp only [hardlink_to, hres, hparse, hgf, hlast, hsucc]
    · intro d hd hdf
      rw [hdata1]
      have hm := List.mem_map_of_mem (fun (x : DataRow) => if x.file_id == fid
          then { x with link_count := x.link_count + 1 } else x) hd
      simpa [hdf] using hm
    · intro d hd hdf
      rw [hdata1]
      have hm := List.mem_map_of_mem (fun (x : DataRow) => if x.file_id == fid
          then { x with link_count := x.link_count + 1 } else x) hd
      simpa [hdf] using hm

theorem C8_witness :
    ∃ db', hardlink_to dbC3 ["g"] "f" = .ok db' ∧
      db'.fs = dbC3.fs ++ [⟨dbC3.next_fs_id, "g", some ROOT_ID, some 1⟩] ∧
      (∀ d ∈ dbC3.data, d.file_id = 1 →
        ({ d with link_count := d.link_count + 1 } : DataRow) ∈ db'.data) ∧
      (∀ d ∈ dbC3.data, d.file_id ≠ 1 → d ∈ db'.data) :=
  (C8_hardlink_taxonomy dbC3 ["g"] "f" ["f"] ROOT_ID "g" (by decide) rfl rfl
    (by decide)).2.2.2 1 (by decide) (by decide)

/-- C6: after `write_bytes p b1`, `hardlink_to q t` with `t` parsing to `p`,
and `write_bytes p b2`, both `read_bytes p` and `read_bytes q` return `b2`:
the overwrite mutates the shared Content row in place, so every hardlinked
name observes the new bytes. -/
theorem C6_overwrite_shared_content (db db1 db2 : DB) (p q : List String) (t : String)
    (b1 b2 : Bytes)
    (hInv : StoreInv db)
    (hparse : purePathInit [t] = .ok p)
    (hw1 : write_bytes db p b1 = .ok db1)
    (hl : hardlink_to db1 q t = .ok db2) :
    ∃ db3, write_bytes db2 p b2 = .ok db3 ∧
      read_bytes db3 p = .ok b2 ∧ read_bytes db3 q = .ok b2 := by
  have hInv1 : StoreInv db1 := write_bytes_inv hInv hw1
  obtain ⟨pl, pid, row, fid, d, hlast, hres0, ⟨ext, hext⟩, hres1, hfind1, hrowf, hd1, hdb⟩ :=
    write_bytes_ok_elim hInv hw1
  obtain ⟨qpid, ts2, fidT, ql, hresq, hparse2, hgfT, hlastq, hnoneq, hfs2, hnext2,
    hdata2, hnf2⟩ := hardlink_to_ok_elim hl
  have hts : p = ts2 := by
    rw [hparse] at hparse2
    simpa using hparse2
  subst hts
  have hfind1' : db1.fs.find? (fun x => x.parent_id == some pid && x.name == pl)
      = some row := by
    have h12 : ∀ a : FsRow,
        (a.parent_id == some pid && a.name == pl)
          = (a.name == pl && a.parent_id == some pid) :=
      fun a => Bool.and_comm _ _
    rw [find?_pred_congr db1.fs h12]
    exact hfind1
  have hgfid : get_file_id_from db1 ROOT_ID (p.dropLast ++ [pl]) = .ok row.file_id :=
    get_file_id_resolve hInv1.2.2.2.1 p.dropLast ROOT_ID pid pl row hres1 hfind1'
  rw [dropLast_concat_getLast? hlast] at hgfid
  have hfidT : fid = fidT := by
    have h1 : get_file_id_from db1 ROOT_ID p = .ok (some fidT) := hgfT
    rw [hgfid, hrowf] at h1
    simpa using h1
  subst hfidT
  have hfind2 : db2.fs.find? (fun r => r.name == pl && r.parent_id == some pid)
      = some row := by
    rw [hfs2, List.find?_append, hfind1]
    simp
  have hres2 : resolve_dirs db2 ROOT_ID p.dropLast = .ok pid :=
    resolve_dirs_append hfs2 hres1
  have hd1f : d.file_id = fid := by
    have := List.find?_some hd1
    simpa using this
  have hd2 : db2.data.find? (fun x => x.file_id == fid)
      = some { d with link_count := d.link_count + 1 } := by
    rw [hdata2, find?_file_id_map]
    · rw [hd1]
      simp [hd1f]
    · intro x
      by_cases hc : (x.file_id == fid) = true
      · simp [hc]
      · simp [hc]
  have hw2 : write_bytes db2 p b2 = .ok (insert_file_overwrite_id db2 b2 fid) :=
    write_bytes_overwrite hlast hres2 hfind2 hrowf
  have hfs3 : (insert_file_overwrite_id db2 b2 fid).fs = db2.fs := by
    simp [insert_file_overwrite_id]
  have hd3 : (insert_file_overwrite_id db2 b2 fid).data.find? (fun x => x.file_id == fid)
      = some { { d with link_count := d.link_count + 1 } with data := b2 } := by
    show ((db2.data.map (fun (x : DataRow) => if x.file_id == fid
        then { x with data := b2 } else x)).find? (fun x => x.file_id == fid)) = _
    rw [find?_file_id_map]
    · rw [hd2]
      simp [hd1f]
    · intro x
      by_cases hc : (x.file_id == fid) = true
      · simp [hc]
      · simp [hc]
  refine ⟨insert_file_overwrite_id db2 b2 fid, hw2, ?_, ?_⟩
  · have hres3 : resolve_dirs (insert_file_overwrite_id db2 b2 fid) ROOT_ID p.dropLast
        = .ok pid := by
      rw [resolve_dirs_fs_eq hfs3]
      exact hres2
    have hfind3 : (insert_file_overwrite_id db2 b2 fid).fs.find?
        (fun r => r.name == pl && r.parent_id == some pid) = some row := by
      rw [hfs3]
      exact hfind2
    have hrd := read_bytes_of_state hlast hres3 hfind3 hrowf hd3
    simpa using hrd
  · have hres3q : resolve_dirs (insert_file_overwrite_id db2 b2 fid) ROOT_ID q.dropLast
        = .ok qpid := by
      rw [resolve_dirs_fs_eq hfs3]
      exact resolve_dirs_append hfs2 hresq
    have hnonefq : db1.fs.find? (fun r => r.name == ql && r.parent_id == some qpid)
        = none := by
      rw [List.find?_eq_none]
      intro x hx hpx
      simp only [Bool.and_eq_true, beq_iff_eq] at hpx
      exact hnoneq x hx ⟨hpx.1, hpx.2⟩
    have hfindq : (insert_file_overwrite_id db2 b2 fid).fs.find?
        (fun r => r.name == ql && r.parent_id == some qpid)
        = some ⟨db1.next_fs_id, ql, some qpid, some fid⟩ := by
      rw [hfs3, hfs2, List.find?_append, hnonefq]
      simp
    have hrowq : (⟨db1.next_fs_id, ql, some qpid, some fid⟩ : FsRow).file_id = some fid :=
      rfl
    have hrd := read_bytes_of_state hlastq hres3q hfindq hrowq hd3
    simpa using hrd

theorem C6_witness :
    ∃ db3, write_bytes dbC6 ["f"] [2, 3] = .ok db3 ∧
      read_bytes db3 ["f"] = .ok [2, 3] ∧ read_bytes db3 ["g"] = .ok [2, 3] :=
  C6_overwrite_shared_content initDB dbC3 dbC6 ["f"] ["g"] "f" [1] [2, 3]
    storeInv_init (by decide) (by decide) (by decide)
